import Mathlib

/-!
The training core of whichlang, package neuralnet (`neuralnet/train.go`).

A shallow embedding of the adaptive trainer `Trainer.Train` and of the
step-size search `Train`.

* Go `int` values are integers of `Int` on which every addition and
  subtraction of the source is wrapped to 64 bits (`wrapInt`).
* A `float64` that is only compared (the scores) is `Float64 V`: either NaN or
  a value of a linearly ordered type `V`; the comparison operators are the
  ones of Go (every comparison with NaN is false).
* `Network`, `DataSet` and the gradient calculator are declared outside
  `train.go`.  `Trainer.Train` reaches the network only through
  `runAllSamples`, `containsNaN`, `CrossScore`, `TrainingScore` and `Copy`, so
  the embedding is parametric in the network type `Net` and in these five
  operations (`Ops`).
* The unbounded `for` of `Trainer.Train` takes fuel: one unit per pass.
-/

namespace neuralnet

/-- Source constant `InitialIterationCount` (train.go, line 10) -/
def InitialIterationCount : Int := 2000

/-- Source constant `DefaultMaxIterations` (train.go, line 11) -/
def DefaultMaxIterations : Int := 6400

/-- Smallest value of a 64 bit Go `int` -/
def intMin : Int := -9223372036854775808

/-- Greatest value of a 64 bit Go `int` -/
def intMax : Int := 9223372036854775807

/-- Result of a Go `int` addition or subtraction whose exact value is `x`:
two's complement wrap-around to 64 bits -/
def wrapInt (x : Int) : Int :=
  (x + 9223372036854775808) % 18446744073709551616 - 9223372036854775808

/-- A Go `float64` as its comparison operators see it: NaN, or an ordered value -/
inductive Float64 (V : Type) where
  | nan : Float64 V
  | val (v : V) : Float64 V
  deriving DecidableEq, Repr

namespace Float64

variable {V : Type} [LinearOrder V]

/-- Go `a == b` on float64 -/
def eq : Float64 V → Float64 V → Bool
  | val a, val b => decide (a = b)
  | _, _ => false

/-- Go `a < b` on float64 -/
def lt : Float64 V → Float64 V → Bool
  | val a, val b => decide (a < b)
  | _, _ => false

/-- Go `a > b` on float64 -/
def gt : Float64 V → Float64 V → Bool
  | val a, val b => decide (b < a)
  | _, _ => false

/-- Go `a >= b` on float64 -/
def ge : Float64 V → Float64 V → Bool
  | val a, val b => decide (b ≤ a)
  | _, _ => false

end Float64

/-- Number of calls made so far on behalf of one Trainer, per callee; `revert`
counts the assignments `t.n = lastNet` (train.go, line 122) -/
structure Calls where
  runAllSamples : Nat
  containsNaN : Nat
  CrossScore : Nat
  TrainingScore : Nat
  Copy : Nat
  revert : Nat
  deriving DecidableEq, Repr

/-- No call made yet -/
def Calls.zero : Calls :=
  { runAllSamples := 0, containsNaN := 0, CrossScore := 0, TrainingScore := 0,
    Copy := 0, revert := 0 }

/-- The operations through which `train.go` reaches a network.  `runAllSamples`
is one epoch at the given step size on the Trainer's DataSet; `CrossScore` and
`TrainingScore` are the DataSet's scoring methods; `containsNaN` and `Copy` are
the network's methods -/
structure Ops (Net V : Type) where
  runAllSamples : ℚ → Net → Net
  containsNaN : Net → Bool
  CrossScore : Net → Float64 V
  TrainingScore : Net → Float64 V
  Copy : Net → Net

/-- Source type `Trainer` (train.go, lines 47-53): the network `n` and the
step size; the fields `d` and `g` are never reassigned and are carried by
`Ops`.  `calls` is the record of the calls made through this Trainer -/
structure Trainer (Net : Type) where
  n : Net
  stepSize : ℚ
  calls : Calls

variable {Net V : Type} [LinearOrder V]

/-- The loop `for i := 0; i < k; i++ { t.runAllSamples() }` (train.go, lines
88-90 and 109-111): `k` epochs when `k` is positive, none otherwise -/
def runEpochs (E : Ops Net V) (k : Int) (t : Trainer Net) : Trainer Net :=
  { t with
    n := Nat.iterate (E.runAllSamples t.stepSize) k.toNat t.n
    calls := { t.calls with runAllSamples := t.calls.runAllSamples + k.toNat } }

/-- Record one call of `containsNaN` -/
def Trainer.tickNaN (t : Trainer Net) : Trainer Net :=
  { t with calls := { t.calls with containsNaN := t.calls.containsNaN + 1 } }

/-- Record one call of `CrossScore` and one of `TrainingScore` -/
def Trainer.tickScores (t : Trainer Net) : Trainer Net :=
  { t with calls := { t.calls with CrossScore := t.calls.CrossScore + 1,
                                   TrainingScore := t.calls.TrainingScore + 1 } }

/-- Record one call of `Copy` -/
def Trainer.tickCopy (t : Trainer Net) : Trainer Net :=
  { t with calls := { t.calls with Copy := t.calls.Copy + 1 } }

/-- The assignment `t.n = lastNet` (train.go, line 122) -/
def Trainer.revertTo (t : Trainer Net) (lastNet : Net) : Trainer Net :=
  { t with n := lastNet, calls := { t.calls with revert := t.calls.revert + 1 } }

/-- Local variables of `Trainer.Train` at the head of its doubling loop
(train.go, line 104), with the Trainer itself -/
structure LoopState (Net V : Type) where
  t : Trainer Net
  iters : Int
  crossScore : Float64 V
  trainScore : Float64 V
  lastNet : Net

/-- How one pass of the doubling loop ends -/
inductive Outcome (Net V : Type) where
  /-- Exit by `break` at line 115: the network contains NaN; `Train` then returns -/
  | diverged (t : Trainer Net) : Outcome Net V
  /-- Exit by `return` at line 123, after `t.n = lastNet` -/
  | reverted (t : Trainer Net) : Outcome Net V
  /-- Exit by `return` at line 130: the new state is accepted and `iters == maxIters` -/
  | reachedMax (t : Trainer Net) : Outcome Net V
  /-- No exit: the new state is accepted and the loop goes round again -/
  | next (s : LoopState Net V) : Outcome Net V

/-- Length of the next block (train.go, lines 105-108) -/
def nextAmount (maxIters iters : Int) : Int :=
  if wrapInt (iters + iters) > maxIters then wrapInt (maxIters - iters) else iters

/-- The revert test of train.go, lines 120-121 -/
def revertTest (newCrossScore newTrainScore crossScore trainScore : Float64 V) : Bool :=
  (Float64.eq newCrossScore crossScore && Float64.eq newTrainScore trainScore) ||
    Float64.lt newCrossScore crossScore

/-- The Trainer after the block of epochs of one pass (train.go, lines 105-111) -/
def afterBlock (E : Ops Net V) (maxIters : Int) (s : LoopState Net V) : Trainer Net :=
  runEpochs E (nextAmount maxIters s.iters) s.t

/-- One pass of the doubling loop of `Trainer.Train` (train.go, lines 105-132) -/
def loopBody (E : Ops Net V) (maxIters : Int) (s : LoopState Net V) : Outcome Net V :=
  let amount := nextAmount maxIters s.iters
  let t1 := afterBlock E maxIters s
  let iters := wrapInt (s.iters + amount)
  let t2 := t1.tickNaN
  if E.containsNaN t1.n then
    Outcome.diverged t2
  else
    let newCrossScore := E.CrossScore t2.n
    let newTrainScore := E.TrainingScore t2.n
    let t3 := t2.tickScores
    if revertTest newCrossScore newTrainScore s.crossScore s.trainScore then
      Outcome.reverted (t3.revertTo s.lastNet)
    else if iters = maxIters then
      Outcome.reachedMax t3
    else
      Outcome.next
        { t := t3.tickCopy
          iters := iters
          crossScore := newCrossScore
          trainScore := newTrainScore
          lastNet := E.Copy t3.n }

/-- The doubling loop of `Trainer.Train` (train.go, lines 104-133); `none` when
the fuel is used up before the loop is left -/
def trainLoop (E : Ops Net V) (maxIters : Int) : Nat → LoopState Net V → Option (Trainer Net)
  | 0, _ => none
  | fuel + 1, s =>
    match loopBody E maxIters s with
    | Outcome.diverged t => some t
    | Outcome.reverted t => some t
    | Outcome.reachedMax t => some t
    | Outcome.next s1 => trainLoop E maxIters fuel s1

/-- Length of the initial block (train.go, lines 84-87) -/
def initialIters (maxIters : Int) : Int :=
  if InitialIterationCount > maxIters then maxIters else InitialIterationCount

/-- The loop state with which `Trainer.Train` enters its doubling loop (train.go,
lines 101-103): the scores of the network after the initial block and a copy
of that network -/
def firstLoopState (E : Ops Net V) (iters : Int) (t1 : Trainer Net) : LoopState Net V :=
  { t := t1.tickNaN.tickScores.tickCopy
    iters := iters
    crossScore := E.CrossScore t1.n
    trainScore := E.TrainingScore t1.n
    lastNet := E.Copy t1.n }

/-- What `Trainer.Train` does after its initial block (train.go, lines 91-133);
`t1` is the Trainer after that block and `iters` the length of the block -/
def trainRest (E : Ops Net V) (fuel : Nat) (maxIters iters : Int) (t1 : Trainer Net) :
    Option (Trainer Net) :=
  if iters = maxIters then
    some t1
  else if E.containsNaN t1.n then
    some t1.tickNaN
  else
    trainLoop E maxIters fuel (firstLoopState E iters t1)

/-- Source method `Trainer.Train` (train.go, lines 83-134) -/
def Trainer.Train (E : Ops Net V) (fuel : Nat) (maxIters : Int) (t : Trainer Net) :
    Option (Trainer Net) :=
  let iters := initialIters maxIters
  trainRest E fuel maxIters iters (runEpochs E iters t)

/-- Source method `Trainer.Network` (train.go, lines 136-138) -/
def Trainer.Network (t : Trainer Net) : Net := t.n

/-- The values the loop variable takes in `for i := lo; i < hi; i++`, in order -/
def forRange (lo hi : Int) : List Int :=
  (List.range (hi - lo).toNat).map (fun k => lo + (k : Int))

/-- What the search `Train` calls outside `train.go`, for a corpus type `Data`,
a DataSet type `DS` and a state `Rng` of the shared random source:
`NewDataSet`, the construction of a Trainer's network by `NewTrainer` (which
draws the initial weights from the random source), and the operations of the
trainers built over a DataSet -/
structure Search (Data DS Net V Rng : Type) where
  NewDataSet : Data → DS
  NewTrainer : DS → ℚ → Rng → Net × Rng
  ops : DS → Ops Net V

/-- Record of one pass of the search loop: the loop variable, the DataSet and
step size given to `NewTrainer`, the state of the random source when it is
called and the network it builds, the argument of `Trainer.Train` and the
Trainer when `Train` has returned -/
structure Trial (DS Net Rng : Type) where
  stepPower : Int
  ds : DS
  stepSize : ℚ
  rng : Rng
  built : Net
  maxIters : Int
  trainer : Trainer Net

/-- Local variables of the search `Train` (train.go, lines 20-22), the state
of the random source and the record of the passes made so far -/
structure SearchState (DS Net V Rng : Type) where
  best : Option Net
  bestCrossScore : Float64 V
  bestTrainScore : Float64 V
  rng : Rng
  trials : List (Trial DS Net Rng)

/-- The replacement test of train.go, lines 36-37 -/
def replaceTest (crossScore trainScore bestCrossScore bestTrainScore : Float64 V)
    (bestIsNil : Bool) : Bool :=
  (Float64.eq crossScore bestCrossScore && Float64.ge trainScore bestTrainScore) ||
    bestIsNil || Float64.gt crossScore bestCrossScore

variable {Data DS Rng : Type}

/-- One pass of the search loop (train.go, lines 25-41) -/
def searchBody (C : Search Data DS Net V Rng) (fuel : Nat) (ds : DS)
    (st : SearchState DS Net V Rng) (stepPower : Int) : Option (SearchState DS Net V Rng) :=
  let stepSize : ℚ := (2 : ℚ) ^ stepPower
  let built := C.NewTrainer ds stepSize st.rng
  match Trainer.Train (C.ops ds) fuel DefaultMaxIterations
      { n := built.1, stepSize := stepSize, calls := Calls.zero } with
  | none => none
  | some t =>
    let n := t.Network
    let st1 : SearchState DS Net V Rng :=
      { st with
        rng := built.2
        trials := st.trials ++
          [{ stepPower := stepPower, ds := ds, stepSize := stepSize, rng := st.rng,
             built := built.1, maxIters := DefaultMaxIterations, trainer := t }] }
    if (C.ops ds).containsNaN n then
      some st1
    else
      let crossScore := (C.ops ds).CrossScore n
      let trainScore := (C.ops ds).TrainingScore n
      if replaceTest crossScore trainScore st.bestCrossScore st.bestTrainScore st.best.isNone then
        some { st1 with bestCrossScore := crossScore, bestTrainScore := trainScore, best := some n }
      else
        some st1

/-- Local variables of the search `Train` before its loop (train.go, lines
20-22): `best` is nil and both scores are zero -/
def searchStart [Zero V] (rng : Rng) : SearchState DS Net V Rng :=
  { best := none, bestCrossScore := Float64.val 0, bestTrainScore := Float64.val 0,
    rng := rng, trials := [] }

/-- The search loop of `Train` (train.go, lines 18-42) with its final state -/
def searchLoop [Zero V] (C : Search Data DS Net V Rng) (fuel : Nat) (rng : Rng) (data : Data) :
    Option (SearchState DS Net V Rng) :=
  let ds := C.NewDataSet data
  (forRange (-20) 10).foldlM (searchBody C fuel ds) (searchStart rng)

/-- Source function `Train` (train.go, lines 17-45): `some none` is the nil
result; the outer `none` is fuel used up in a `Trainer.Train` -/
def Train [Zero V] (C : Search Data DS Net V Rng) (fuel : Nat) (rng : Rng) (data : Data) :
    Option (Option Net) :=
  (searchLoop C fuel rng data).map (fun st => st.best)

/-- The networks the search looks at: `t.Network()` of every pass, in order -/
def SearchState.candidates (st : SearchState DS Net V Rng) : List Net :=
  st.trials.map (fun tr => tr.trainer.Network)

/-- Network `m` is at least as good as network `n` for the search: `n` has no
strictly higher cross-validation score and, at an equal cross-validation score,
no strictly higher training score (comparisons of Go) -/
def notBetter (E : Ops Net V) (n m : Net) : Prop :=
  Float64.gt (E.CrossScore n) (E.CrossScore m) = false ∧
    ¬ (Float64.eq (E.CrossScore n) (E.CrossScore m) = true ∧
        Float64.gt (E.TrainingScore n) (E.TrainingScore m) = true)

/-- What holds of the running best of the search after any number of passes:
while `best` is nil every network looked at contains NaN; otherwise `best` is
one of the networks looked at, does not contain NaN, the stored scores are its
scores, and no network looked at that does not contain NaN is better -/
def SearchInv (E : Ops Net V) (st : SearchState DS Net V Rng) : Prop :=
  (st.best = none → ∀ n ∈ st.candidates, E.containsNaN n = true) ∧
    (∀ b, st.best = some b →
      b ∈ st.candidates ∧ E.containsNaN b = false ∧
        st.bestCrossScore = E.CrossScore b ∧ st.bestTrainScore = E.TrainingScore b ∧
        ∀ n ∈ st.candidates, E.containsNaN n = false → notBetter E n b)

/-- What holds of the record of the passes when the loop variable has taken the
values `done`: one record per value, in order; each pass built its Trainer
with `NewTrainer` on the DataSet `ds` at step size `2 ^ stepPower` and ran
`Trainer.Train(DefaultMaxIterations)` on it -/
def LogInv (C : Search Data DS Net V Rng) (fuel : Nat) (ds : DS) (done : List Int)
    (st : SearchState DS Net V Rng) : Prop :=
  st.trials.map (fun tr => tr.stepPower) = done ∧
    ∀ tr ∈ st.trials,
      tr.ds = ds ∧ tr.stepSize = (2 : ℚ) ^ tr.stepPower ∧ tr.maxIters = DefaultMaxIterations ∧
        tr.built = (C.NewTrainer ds tr.stepSize tr.rng).1 ∧
        Trainer.Train (C.ops ds) fuel tr.maxIters
          { n := tr.built, stepSize := tr.stepSize, calls := Calls.zero } = some tr.trainer

/-- The cumulative epoch count of the `k`-th scoring checkpoint of
`Trainer.Train(maxIters)` as the doubling schedule gives it:
`min(2000 * 2^k, maxIters)` -/
def checkpoint (maxIters : Int) (k : Nat) : Nat :=
  min (2000 * 2 ^ k) maxIters.toNat

/-- What holds of the place of the running best among the networks looked at:
it is the network of some pass, and no network of a later pass that does not
contain NaN passes the replacement test against it -/
def LastInv (E : Ops Net V) (st : SearchState DS Net V Rng) : Prop :=
  ∀ b, st.best = some b →
    ∃ i : Nat, st.candidates[i]? = some b ∧
      ∀ (j : Nat) (n : Net), i < j → st.candidates[j]? = some n → E.containsNaN n = false →
        replaceTest (E.CrossScore n) (E.TrainingScore n) (E.CrossScore b)
          (E.TrainingScore b) false = false

/-! ## The network, the DataSet, the gradient calculator and the random source

The type `F` stands for `float64` where a weight, a partial derivative, the
step size or a draw of the random source is meant; the definitions use its
`0`, `1`, `2`, `*` and `-` and no law of them, so that they are the code for
every arithmetic, the rounding one of `float64` included.  A slice index out
of range, at which Go panics, makes the function return `none`. -/

/-- Source constant `HiddenLayerScale` (train.go, line 15) -/
def HiddenLayerScale : ℚ := 2

/-- Modelled from the spec: type `Network`, declared outside `train.go` (spec,
section 3, Model), with the four fields of the composite literal of
`NewTrainer` (train.go, lines 57-62), the weight matrices being `[][]float64` -/
structure Network (F : Type) where
  Tokens : List String
  Langs : List String
  HiddenWeights : List (List F)
  OutputWeights : List (List F)

/-- Modelled from the spec: type `DataSet`, declared outside `train.go` (spec,
section 3, Dataset).  `TrainingSamples` is the Go map from label to samples as
the list of its entries, whose keys are pairwise distinct; `Tokens` and
`Langs` are what the methods `Tokens()` and `Langs()` return.  `Freqs` is the
type `tokens.Freqs` of a sample -/
structure DataSet (Freqs : Type) where
  TrainingSamples : List (String × List Freqs)
  Tokens : List String
  Langs : List String

/-- Modelled from the spec: type `gradientCalc`, declared outside `train.go`
(spec, section 3, GradientCalculator), with the two matrices `descendSample`
ranges over (train.go, lines 155 and 160) -/
structure gradientCalc (F : Type) where
  HiddenPartials : List (List F)
  OutputPartials : List (List F)

/-- The functions of the gradient calculator, declared outside `train.go`:
`newGradientCalc(n)`, and the methods `Compute(f, langIdx)` and `Normalize()`,
which overwrite the calculator; `Compute` reads the network the calculator was
built for, which is the network `t.n` of its Trainer -/
structure GradOps (F Freqs : Type) where
  newGradientCalc : Network F → gradientCalc F
  Compute : Network F → gradientCalc F → Freqs → Nat → gradientCalc F
  Normalize : gradientCalc F → gradientCalc F

/-- The shared random source of `math/rand`: the stream of the values
`rand.Float64()` returns, and the number of values drawn so far -/
structure Rand (F : Type) where
  draws : Nat → F
  pos : Nat

/-- Source call `rand.Float64()`: the value returned -/
def Rand.Float64 {F : Type} (r : Rand F) : F := r.draws r.pos

/-- Source call `rand.Float64()`: the random source after the call -/
def Rand.next {F : Type} (r : Rand F) : Rand F := { r with pos := r.pos + 1 }

/-- Source type `Trainer` (train.go, lines 47-53) with its four fields, on the
network model; `steps` is the record of the calls of `descendSample` made
through this Trainer, each with its sample and label index -/
structure FullTrainer (F Freqs : Type) where
  n : Network F
  d : DataSet Freqs
  g : gradientCalc F
  stepSize : F
  steps : List (Freqs × Nat)

/-- The value of `hiddenCount` (train.go, line 56) for a map of `L` training
labels: `int(HiddenLayerScale * float64(L))`.  The conversion `float64(L)` and
the product are exact for every `L` below 2^52, and a Go map has fewer
entries -/
def hiddenCountOf (L : Nat) : Nat := Int.toNat ⌊HiddenLayerScale * (L : ℚ)⌋

/-- The loop `for j := range ... { row[j] = rand.Float64()*2 - 1 }` (train.go,
lines 65-67 and 71-73) with `k` indices still to come, the next being `j` -/
def fillRow {F : Type} [One F] [OfNat F 2] [Mul F] [Sub F] :
    Nat → Nat → List F → Rand F → Option (List F × Rand F)
  | 0, _, row, r => some (row, r)
  | k + 1, j, row, r =>
    if j < row.length then
      fillRow k (j + 1) (row.set j (r.Float64 * 2 - 1)) r.next
    else
      none

/-- The loop `for i := range w { w[i] = make([]float64, rowLen); for j := range
... { w[i][j] = rand.Float64()*2 - 1 } }` (train.go, lines 63-68 and 69-74)
with `k` rows still to come, the next being `i`; `count` is the number of
indices `j` the inner loop goes through -/
def fillRows {F : Type} [Zero F] [One F] [OfNat F 2] [Mul F] [Sub F] (rowLen count : Nat) :
    Nat → Nat → List (List F) → Rand F → Option (List (List F) × Rand F)
  | 0, _, w, r => some (w, r)
  | k + 1, i, w, r =>
    if i < w.length then
      match fillRow count 0 (List.replicate rowLen 0) r with
      | none => none
      | some (row, r1) => fillRows rowLen count k (i + 1) (w.set i row) r1
    else
      none

/-- Source function `NewTrainer` (train.go, lines 55-81), with the random
source after it.  The inner loop over an output row ranges over
`n.OutputWeights` (line 65), the one over a hidden row over the row itself
(line 71) -/
def NewTrainer {F Freqs : Type} [Zero F] [One F] [OfNat F 2] [Mul F] [Sub F]
    (G : GradOps F Freqs) (d : DataSet Freqs) (stepSize : F) (r : Rand F) :
    Option (FullTrainer F Freqs × Rand F) :=
  let hiddenCount := hiddenCountOf d.TrainingSamples.length
  let n : Network F :=
    { Tokens := d.Tokens
      Langs := d.Langs
      HiddenWeights := List.replicate hiddenCount []
      OutputWeights := List.replicate d.TrainingSamples.length [] }
  match fillRows (hiddenCount + 1) n.OutputWeights.length n.OutputWeights.length 0
      n.OutputWeights r with
  | none => none
  | some (outputWeights, r1) =>
    match fillRows (n.Tokens.length + 1) (n.Tokens.length + 1) n.HiddenWeights.length 0
        n.HiddenWeights r1 with
    | none => none
    | some (hiddenWeights, r2) =>
      let n1 : Network F :=
        { n with HiddenWeights := hiddenWeights, OutputWeights := outputWeights }
      some ({ n := n1, d := d, g := G.newGradientCalc n1, stepSize := stepSize, steps := [] }, r2)

/-- The loop `for j, p := range row of partials { w[i][j] -= p * t.stepSize }`
(train.go, lines 156-158 and 161-163) on the row `row = w[i]`, from index `j` on -/
def descendRow {F : Type} [Mul F] [Sub F] (stepSize : F) :
    Nat → List F → List F → Option (List F)
  | _, [], row => some row
  | j, p :: ps, row =>
    match row[j]? with
    | none => none
    | some w => descendRow stepSize (j + 1) ps (row.set j (w - p * stepSize))

/-- The loop over the rows of a matrix of partials (train.go, lines 155-159
and 160-164), from row `i` on; a row of partials that is empty touches no
weight -/
def descendRows {F : Type} [Mul F] [Sub F] (stepSize : F) :
    Nat → List (List F) → List (List F) → Option (List (List F))
  | _, [], w => some w
  | i, [] :: rest, w => descendRows stepSize (i + 1) rest w
  | i, (p :: ps) :: rest, w =>
    match w[i]? with
    | none => none
    | some row =>
      match descendRow stepSize 0 (p :: ps) row with
      | none => none
      | some row1 => descendRows stepSize (i + 1) rest (w.set i row1)

/-- Source method `Trainer.descendSample` (train.go, lines 151-165) -/
def descendSample {F Freqs : Type} [Mul F] [Sub F] (G : GradOps F Freqs)
    (t : FullTrainer F Freqs) (f : Freqs) (langIdx : Nat) : Option (FullTrainer F Freqs) :=
  let g1 := G.Compute t.n t.g f langIdx
  let g2 := G.Normalize g1
  match descendRows t.stepSize 0 g2.HiddenPartials t.n.HiddenWeights with
  | none => none
  | some hiddenWeights =>
    match descendRows t.stepSize 0 g2.OutputPartials t.n.OutputWeights with
    | none => none
    | some outputWeights =>
      some { t with
        n := { t.n with HiddenWeights := hiddenWeights, OutputWeights := outputWeights }
        g := g2
        steps := t.steps ++ [(f, langIdx)] }

/-- The map read `t.d.TrainingSamples[lang]` (train.go, line 142): the samples
of the entry with key `lang`, no sample when there is no such entry -/
def samplesOf {Freqs : Type} (d : DataSet Freqs) (lang : String) : List Freqs :=
  (d.TrainingSamples.lookup lang).getD []

/-- The loop `for _, sample := range samples { t.descendSample(sample, i) }`
(train.go, lines 143-145) -/
def descendAll {F Freqs : Type} [Mul F] [Sub F] (G : GradOps F Freqs) (i : Nat) :
    List Freqs → FullTrainer F Freqs → Option (FullTrainer F Freqs)
  | [], t => some t
  | sample :: rest, t =>
    match descendSample G t sample i with
    | none => none
    | some t1 => descendAll G i rest t1

/-- The loop `for i, lang := range t.n.Langs` (train.go, lines 141-146), from
index `i` on -/
def runLangs {F Freqs : Type} [Mul F] [Sub F] (G : GradOps F Freqs) :
    Nat → List String → FullTrainer F Freqs → Option (FullTrainer F Freqs)
  | _, [], t => some t
  | i, lang :: langs, t =>
    match descendAll G i (samplesOf t.d lang) t with
    | none => none
    | some t1 => runLangs G (i + 1) langs t1

/-- Source method `Trainer.runAllSamples` (train.go, lines 140-147) -/
def runAllSamples {F Freqs : Type} [Mul F] [Sub F] (G : GradOps F Freqs)
    (t : FullTrainer F Freqs) : Option (FullTrainer F Freqs) :=
  runLangs G 0 t.n.Langs t

/-! ### What the claims about the network say, in their own words -/

/-- The entry `m[i][j]` of a matrix, none outside it -/
def entry {F : Type} (m : List (List F)) (i j : Nat) : Option F :=
  match m[i]? with
  | none => none
  | some row => row[j]?

/-- The lengths of the rows of a matrix -/
def shape {F : Type} (m : List (List F)) : List Nat := m.map List.length

/-- A matrix of partials fits a matrix of weights: each of its entries has a
weight at the same indices (an empty row of partials needs no row of weights) -/
def Fits {F : Type} : List (List F) → List (List F) → Prop
  | [], _ => True
  | p :: ps, [] => p = [] ∧ Fits ps []
  | p :: ps, w :: ws => p.length ≤ w.length ∧ Fits ps ws

/-- The weights of a row after a descent step: entry `j` is lowered by the
partial at `j` times the step size, where there is such a partial -/
def subRow {F : Type} [Mul F] [Sub F] (stepSize : F) : List F → List F → List F
  | w :: ws, p :: ps => (w - p * stepSize) :: subRow stepSize ws ps
  | ws, [] => ws
  | [], _ :: _ => []

/-- The weight matrix after a descent step, row by row -/
def subRows {F : Type} [Mul F] [Sub F] (stepSize : F) :
    List (List F) → List (List F) → List (List F)
  | w :: ws, p :: ps => subRow stepSize w p :: subRows stepSize ws ps
  | ws, [] => ws
  | [], _ :: _ => []

/-- The steps of one epoch: for the labels `langs` with indices from `i` on,
the training samples of each label in stored order, each paired with the index
of the label -/
def epochSteps {Freqs : Type} (d : DataSet Freqs) : Nat → List String → List (Freqs × Nat)
  | _, [] => []
  | i, lang :: langs => (samplesOf d lang).map (fun s => (s, i)) ++ epochSteps d (i + 1) langs

/-- The Trainer is bound to a gradient calculator whose matrices have the shape
of the weight matrices (spec, section 3, GradientCalculator) -/
def Bound {F Freqs : Type} (t : FullTrainer F Freqs) : Prop :=
  shape t.g.HiddenPartials = shape t.n.HiddenWeights ∧
    shape t.g.OutputPartials = shape t.n.OutputWeights

/-- The methods `Compute` and `Normalize` overwrite the entries of the
calculator and keep the shape of its matrices -/
def KeepsShape {F Freqs : Type} (G : GradOps F Freqs) : Prop :=
  ∀ (n : Network F) (g : gradientCalc F) (f : Freqs) (i : Nat),
    shape (G.Normalize (G.Compute n g f i)).HiddenPartials = shape g.HiddenPartials ∧
      shape (G.Normalize (G.Compute n g f i)).OutputPartials = shape g.OutputPartials

/-! ## The arithmetic of `float64`

Go's `float64` is the binary64 format of IEEE 754: `*` and `-` give the exact
result rounded to the nearest value of the format, a tie going to the even
significand.  A finite value is given by the rational number it stands for
(the sign of a zero is not kept). -/

/-- Rounding of a rational number to the nearest integer, a tie going to the
even one -/
def roundEven (x : ℚ) : ℤ :=
  if x - ⌊x⌋ < 1 / 2 then ⌊x⌋
  else if 1 / 2 < x - ⌊x⌋ then ⌊x⌋ + 1
  else if ⌊x⌋ % 2 = 0 then ⌊x⌋ else ⌊x⌋ + 1

/-- The exponent of the unit in the last place of binary64 at `q`: the
significand has 53 bits, and below 2^-1022 (subnormal values) the unit stays
2^-1074 -/
def ulpExp (q : ℚ) : ℤ := max (Int.log 2 |q|) (-1022) - 52

/-- Rounding to the nearest binary64 value, with no bound on the exponent
above -/
def roundNearest (q : ℚ) : ℚ := (roundEven (q / 2 ^ ulpExp q) : ℚ) * 2 ^ ulpExp q

/-- A value of Go's `float64`: finite, an infinity with its sign, or NaN -/
inductive Binary64 where
  | fin (q : ℚ)
  | inf (negative : Bool)
  | nan

/-- The `float64` an exact result `q` is rounded to: an infinity when the
rounded value is beyond the greatest finite value -/
def Binary64.round (q : ℚ) : Binary64 :=
  if 2 ^ 1024 ≤ |roundNearest q| then Binary64.inf (decide (q < 0))
  else Binary64.fin (roundNearest q)

/-- Go's `*` on `float64` -/
def Binary64.mul : Binary64 → Binary64 → Binary64
  | Binary64.fin a, Binary64.fin b => Binary64.round (a * b)
  | Binary64.fin a, Binary64.inf t =>
    if a = 0 then Binary64.nan else Binary64.inf (xor (decide (a < 0)) t)
  | Binary64.inf s, Binary64.fin b =>
    if b = 0 then Binary64.nan else Binary64.inf (xor s (decide (b < 0)))
  | Binary64.inf s, Binary64.inf t => Binary64.inf (xor s t)
  | Binary64.nan, _ => Binary64.nan
  | _, Binary64.nan => Binary64.nan

/-- Go's `-` on `float64` -/
def Binary64.sub : Binary64 → Binary64 → Binary64
  | Binary64.fin a, Binary64.fin b => Binary64.round (a - b)
  | Binary64.fin _, Binary64.inf t => Binary64.inf (!t)
  | Binary64.inf s, Binary64.fin _ => Binary64.inf s
  | Binary64.inf s, Binary64.inf t => if s = t then Binary64.nan else Binary64.inf s
  | Binary64.nan, _ => Binary64.nan
  | _, Binary64.nan => Binary64.nan

instance instZeroBinary64 : Zero Binary64 := ⟨Binary64.fin 0⟩

instance instOneBinary64 : One Binary64 := ⟨Binary64.fin 1⟩

instance instTwoBinary64 : OfNat Binary64 2 := ⟨Binary64.fin 2⟩

instance instMulBinary64 : Mul Binary64 := ⟨Binary64.mul⟩

instance instSubBinary64 : Sub Binary64 := ⟨Binary64.sub⟩

/-! ## Example instances used by the closed theorems below -/

/-- Operations on networks that are identified with the number of epochs they
have been through: never diverged, and a cross-validation score that grows
with every epoch -/
def upOps : Ops Nat Nat :=
  { runAllSamples := fun _ n => n + 1
    containsNaN := fun _ => false
    CrossScore := fun n => Float64.val n
    TrainingScore := fun _ => Float64.val 0
    Copy := fun n => n }

/-- Calls made with `upOps` after `k` epochs and `j` checkpoints -/
def upCalls (k j : Nat) : Calls :=
  { runAllSamples := k, containsNaN := j, CrossScore := j, TrainingScore := j,
    Copy := j, revert := 0 }

/-- Loop state of `Trainer.Train` with `upOps` after `k` epochs and `j` checkpoints -/
def upState (k j : Nat) : LoopState Nat Nat :=
  { t := { n := k, stepSize := 1, calls := upCalls k j }
    iters := (k : Int)
    crossScore := Float64.val k
    trainScore := Float64.val 0
    lastNet := k }

/-- A fresh Trainer on the network that has been through no epoch -/
def freshTrainer : Trainer Nat :=
  { n := 0, stepSize := 1, calls := Calls.zero }

/-- Operations on networks counted by their epochs: the network contains NaN
once it has been through more than 2000 epochs, and its cross-validation score
is then 0 instead of 1 -/
def dropOps : Ops Nat Nat :=
  { runAllSamples := fun _ n => n + 1
    containsNaN := fun n => decide (2000 < n)
    CrossScore := fun n => if n ≤ 2000 then Float64.val 1 else Float64.val 0
    TrainingScore := fun _ => Float64.val 0
    Copy := fun n => n }

/-- Operations on networks counted by their epochs: the cross-validation score
never changes and the training score falls from 2 to 1 after 2000 epochs -/
def flatOps : Ops Nat Nat :=
  { runAllSamples := fun _ n => n + 1
    containsNaN := fun _ => false
    CrossScore := fun _ => Float64.val 1
    TrainingScore := fun n => if n ≤ 2000 then Float64.val 2 else Float64.val 1
    Copy := fun n => n }

/-- Operations on networks counted by their epochs: the cross-validation score
never changes and the training score rises with every epoch -/
def riseOps : Ops Nat Nat :=
  { runAllSamples := fun _ n => n + 1
    containsNaN := fun _ => false
    CrossScore := fun _ => Float64.val 1
    TrainingScore := fun n => Float64.val n
    Copy := fun n => n }

/-- The Trainer `freshTrainer` after `k` epochs -/
def trainedFor (k : Nat) : Trainer Nat :=
  { n := k, stepSize := 1,
    calls := { runAllSamples := k, containsNaN := 0, CrossScore := 0, TrainingScore := 0,
               Copy := 0, revert := 0 } }

/-- Loop state of `Trainer.Train(6400)` with `flatOps` when the first doubling
block has been accepted -/
def flatState : LoopState Nat Nat :=
  { t := { n := 4000, stepSize := 1,
           calls := { runAllSamples := 4000, containsNaN := 2, CrossScore := 2,
                      TrainingScore := 2, Copy := 2, revert := 0 } }
    iters := 4000
    crossScore := Float64.val 1
    trainScore := Float64.val 1
    lastNet := 4000 }

/-- Operations on networks counted by their epochs: the network contains NaN
once it has been through more than 1000 epochs -/
def earlyNaNOps : Ops Nat Nat :=
  { runAllSamples := fun _ n => n + 1
    containsNaN := fun n => decide (1000 < n)
    CrossScore := fun _ => Float64.val 0
    TrainingScore := fun _ => Float64.val 0
    Copy := fun n => n }

/-- Operations on networks counted by their epochs: no network contains NaN and
both scores are always NaN (as a ratio of two zero counts is) -/
def nanScoreOps : Ops Nat Nat :=
  { runAllSamples := fun _ n => n + 1
    containsNaN := fun _ => false
    CrossScore := fun _ => Float64.nan
    TrainingScore := fun _ => Float64.nan
    Copy := fun n => n }

/-- A gradient calculator that starts with zeros in the shape of the weights of
the network it is given; `Compute` overwrites every partial with `1`,
`Normalize` changes nothing -/
def onesGrad : GradOps ℚ Nat :=
  { newGradientCalc := fun n =>
      { HiddenPartials := n.HiddenWeights.map (fun row => row.map (fun _ => 0))
        OutputPartials := n.OutputWeights.map (fun row => row.map (fun _ => 0)) }
    Compute := fun _ g _ _ =>
      { HiddenPartials := g.HiddenPartials.map (fun row => row.map (fun _ => 1))
        OutputPartials := g.OutputPartials.map (fun row => row.map (fun _ => 1)) }
    Normalize := fun g => g }

/-- A DataSet with one training label, one sample and one token -/
def oneLabel : DataSet Nat :=
  { TrainingSamples := [("en", [7])], Tokens := ["a"], Langs := ["en"] }

/-- A DataSet with two training labels and three samples -/
def twoLabels : DataSet Nat :=
  { TrainingSamples := [("en", [7, 8]), ("fr", [9])], Tokens := ["a"], Langs := ["en", "fr"] }

/-- A random source that returns 1/16, 2/16, 3/16, ... -/
def sixteenths : Rand ℚ := { draws := fun k => ((k : ℚ) + 1) / 16, pos := 0 }

/-- A Trainer on `twoLabels` whose label order is "fr", "en", with a 1 by 2
hidden matrix and a 2 by 2 output matrix, bound to a calculator of that shape -/
def smallTrainer : FullTrainer ℚ Nat :=
  { n := { Tokens := ["a"], Langs := ["fr", "en"],
           HiddenWeights := [[1, 2]], OutputWeights := [[3, 4], [5, 6]] }
    d := twoLabels
    g := { HiddenPartials := [[0, 0]], OutputPartials := [[0, 0], [0, 0]] }
    stepSize := 1 / 2
    steps := [] }

/-- A gradient calculator without partials, for any weights -/
def noGrad {F : Type} : GradOps F Nat :=
  { newGradientCalc := fun _ => { HiddenPartials := [], OutputPartials := [] }
    Compute := fun _ g _ _ => g
    Normalize := fun g => g }

/-- A random source of `float64` that returns 2^-60 at the first call and 3/4
at every later call -/
def tinyThenHigh : Rand Binary64 :=
  { draws := fun k => if k = 0 then Binary64.fin (1 / 2 ^ 60) else Binary64.fin (3 / 4)
    pos := 0 }

/-! ## Arithmetic of the doubling loop -/

theorem wrapInt_of_range (x : Int) (h1 : intMin ≤ x) (h2 : x ≤ intMax) : wrapInt x = x := by
  unfold intMin at h1
  unfold intMax at h2
  unfold wrapInt
  omega

theorem nextAmount_of_small (maxIters iters : Int) (h0 : 0 < iters) (h1 : iters < maxIters)
    (h2 : maxIters ≤ 4611686018427387904) :
    nextAmount maxIters iters = if iters + iters > maxIters then maxIters - iters else iters := by
  unfold nextAmount
  rw [wrapInt_of_range (iters + iters) (by unfold intMin; omega) (by unfold intMax; omega),
    wrapInt_of_range (maxIters - iters) (by unfold intMin; omega) (by unfold intMax; omega)]

theorem trainLoop_succ_next (E : Ops Net V) (maxIters : Int) (fuel : Nat) (s s1 : LoopState Net V)
    (h : loopBody E maxIters s = Outcome.next s1) :
    trainLoop E maxIters (fuel + 1) s = trainLoop E maxIters fuel s1 := by
  simp [trainLoop, h]

theorem loopBody_next_iters (E : Ops Net V) (maxIters : Int) (s s1 : LoopState Net V)
    (h : loopBody E maxIters s = Outcome.next s1) :
    s1.iters = wrapInt (s.iters + nextAmount maxIters s.iters) ∧ s1.iters ≠ maxIters := by
  unfold loopBody at h
  simp only at h
  split at h
  · cases h
  · split at h
    · cases h
    · split at h
      · cases h
      · rename_i hne
        injection h with h
        subst h
        exact ⟨rfl, hne⟩

/-- Total correctness of the doubling loop while no `int` operation wraps -/
theorem trainLoop_total (E : Ops Net V) (maxIters : Int) (P : LoopState Net V → Prop)
    (Q : Trainer Net → Prop) (hmax : maxIters ≤ 4611686018427387904)
    (hnext : ∀ s s1, P s → 0 < s.iters → s.iters < maxIters →
      loopBody E maxIters s = Outcome.next s1 → P s1)
    (hdiv : ∀ s t, P s → 0 < s.iters → s.iters < maxIters →
      loopBody E maxIters s = Outcome.diverged t → Q t)
    (hrev : ∀ s t, P s → 0 < s.iters → s.iters < maxIters →
      loopBody E maxIters s = Outcome.reverted t → Q t)
    (hmaxed : ∀ s t, P s → 0 < s.iters → s.iters < maxIters →
      loopBody E maxIters s = Outcome.reachedMax t → Q t) :
    ∀ (fuel : Nat) (s : LoopState Net V), P s → 0 < s.iters → s.iters < maxIters →
      maxIters ≤ s.iters * 2 ^ fuel → ∃ t, trainLoop E maxIters fuel s = some t ∧ Q t := by
  intro fuel
  induction fuel with
  | zero =>
    intro s _ _ hlt hle
    simp at hle
    omega
  | succ fuel ih =>
    intro s hP h0 hlt hle
    cases hb : loopBody E maxIters s with
    | diverged t => exact ⟨t, by simp [trainLoop, hb], hdiv s t hP h0 hlt hb⟩
    | reverted t => exact ⟨t, by simp [trainLoop, hb], hrev s t hP h0 hlt hb⟩
    | reachedMax t => exact ⟨t, by simp [trainLoop, hb], hmaxed s t hP h0 hlt hb⟩
    | next s1 =>
      rw [trainLoop_succ_next E maxIters fuel s s1 hb]
      obtain ⟨hi, hne⟩ := loopBody_next_iters E maxIters s s1 hb
      rw [nextAmount_of_small maxIters s.iters h0 hlt hmax] at hi
      have hs1 : s1.iters = s.iters + s.iters := by
        split at hi
        · rw [wrapInt_of_range _ (by unfold intMin; omega) (by unfold intMax; omega)] at hi
          omega
        · rw [wrapInt_of_range _ (by unfold intMin; omega) (by unfold intMax; omega)] at hi
          exact hi
      have hle1 : s.iters + s.iters ≤ maxIters := by
        by_contra hc
        rw [if_pos (by omega)] at hi
        rw [wrapInt_of_range _ (by unfold intMin; omega) (by unfold intMax; omega)] at hi
        omega
      refine ih s1 (hnext s s1 hP h0 hlt hb) (by omega) (by omega) ?_
      rw [hs1]
      have : s.iters * 2 ^ (fuel + 1) = (s.iters + s.iters) * 2 ^ fuel := by ring
      rw [← this]
      exact hle

/-! ## C1 : the epoch ceiling -/

theorem iterate_add_one (k n : Nat) : Nat.iterate (fun m => m + 1) k n = n + k := by
  induction k generalizing n with
  | zero => rfl
  | succ k ih => rw [Function.iterate_succ_apply, ih]; omega

theorem up_step (M : Int) (k j : Nat) (hk : 0 < k) (h2 : ((2 * k : Nat) : Int) < M)
    (hM : M ≤ intMax) :
    loopBody upOps M (upState k j) = Outcome.next (upState (2 * k) (j + 1)) := by
  have hw : wrapInt ((k : Int) + (k : Int)) = ((2 * k : Nat) : Int) := by
    rw [wrapInt_of_range _ (by unfold intMin; omega) (by unfold intMax at hM ⊢; omega)]
    push_cast
    ring
  have hw2 : wrapInt (2 * (k : Int)) = ((2 * k : Nat) : Int) := by
    rw [two_mul]
    exact hw
  have hna : nextAmount M (k : Int) = (k : Int) := by
    unfold nextAmount
    rw [hw, if_neg (by omega)]
  have hlt : ¬ (2 * k < k) := by omega
  have hne : ¬ (2 * k = k) := by omega
  have hM2 : ¬ (((2 * k : Nat) : Int) = M) := by omega
  unfold loopBody
  simp only [upState, hna, hw, runEpochs, afterBlock, upOps, Trainer.tickNaN, Trainer.tickScores,
    Trainer.tickCopy, revertTest, Float64.eq, Float64.lt, upCalls, Int.toNat_ofNat,
    iterate_add_one, ← two_mul, hw2, hlt, hne, hM2, decide_False, Bool.false_and, Bool.or_self,
    if_false, Bool.false_eq_true]

theorem up_run (M : Int) (hM : M ≤ intMax) (fuel : Nat) :
    ∀ (i k j : Nat), 0 < k → ((k * 2 ^ i : Nat) : Int) < M →
      trainLoop upOps M (fuel + i) (upState k j) =
        trainLoop upOps M fuel (upState (k * 2 ^ i) (j + i)) := by
  intro i
  induction i with
  | zero => intro k j _ _; simp
  | succ i ih =>
    intro k j hk hlt
    have e : k * 2 ^ (i + 1) = (2 * k) * 2 ^ i := by ring
    rw [e] at hlt
    have h2 : ((2 * k : Nat) : Int) < M := by
      have : 2 * k ≤ (2 * k) * 2 ^ i := Nat.le_mul_of_pos_right _ (by positivity)
      omega
    rw [← Nat.add_assoc, trainLoop_succ_next upOps M (fuel + i) _ _ (up_step M k j hk h2 hM),
      ih (2 * k) (j + 1) (by omega) hlt, e]
    congr 2
    omega

/-- C1: with `maxIters` the greatest `int`, on a Trainer whose cross-validation
score grows at every checkpoint, the sum `nextAmount+iters` wraps at 2000 * 2^52
epochs, the cap is not applied and `Trainer.Train` returns after
18014398509481984000 calls of `runAllSamples`, more than `maxIters` -/
theorem Train_exceeds_maxIters_at_intMax :
    Trainer.Train upOps 54 9223372036854775807 { n := 0, stepSize := 1, calls := Calls.zero }
        = some { n := 18014398509481984000, stepSize := 1,
                 calls := { runAllSamples := 18014398509481984000, containsNaN := 55,
                            CrossScore := 55, TrainingScore := 55, Copy := 54, revert := 1 } }
      ∧ (9223372036854775807 : Int) < 18014398509481984000 := by
  refine ⟨?_, by norm_num⟩
  have h0 : Trainer.Train upOps 54 9223372036854775807
      { n := 0, stepSize := 1, calls := Calls.zero }
      = trainLoop upOps 9223372036854775807 (2 + 52) (upState 2000 1) := by
    simp [Trainer.Train, trainRest, firstLoopState, initialIters, InitialIterationCount, runEpochs, afterBlock, upOps,
      Trainer.tickNaN, Trainer.tickScores, Trainer.tickCopy, iterate_add_one, Calls.zero,
      upState, upCalls]
  rw [h0, up_run 9223372036854775807 (by unfold intMax; norm_num) 2 52 2000 1 (by norm_num)
    (by norm_num)]
  have h1 : loopBody upOps 9223372036854775807 (upState (2000 * 2 ^ 52) (1 + 52)) =
      Outcome.next
        { t := { n := 18014398509481984000, stepSize := 1,
                 calls := { runAllSamples := 18014398509481984000, containsNaN := 54,
                            CrossScore := 54, TrainingScore := 54, Copy := 54, revert := 0 } }
          iters := -432345564227567616
          crossScore := Float64.val 18014398509481984000
          trainScore := Float64.val 0
          lastNet := 18014398509481984000 } := by
    simp [loopBody, upState, nextAmount, wrapInt, runEpochs, afterBlock, upOps, Trainer.tickNaN,
      Trainer.tickScores, Trainer.tickCopy, revertTest, Float64.eq, Float64.lt, upCalls,
      iterate_add_one]
  rw [trainLoop_succ_next upOps _ 1 _ _ h1]
  simp [trainLoop, loopBody, nextAmount, wrapInt, runEpochs, afterBlock, upOps, Trainer.tickNaN,
    Trainer.tickScores, Trainer.revertTo, revertTest, Float64.eq, Float64.lt]

/-! ## What one pass of the doubling loop does -/

theorem loopBody_diverged (E : Ops Net V) (maxIters : Int) (s : LoopState Net V) (t : Trainer Net)
    (h : loopBody E maxIters s = Outcome.diverged t) :
    E.containsNaN (afterBlock E maxIters s).n = true ∧ t = (afterBlock E maxIters s).tickNaN := by
  unfold loopBody at h
  simp only at h
  split at h
  · rename_i hn
    injection h with h
    exact ⟨hn, h.symm⟩
  · split at h
    · cases h
    · split at h <;> cases h

theorem loopBody_reverted (E : Ops Net V) (maxIters : Int) (s : LoopState Net V) (t : Trainer Net)
    (h : loopBody E maxIters s = Outcome.reverted t) :
    E.containsNaN (afterBlock E maxIters s).n = false ∧
      revertTest (E.CrossScore (afterBlock E maxIters s).n)
        (E.TrainingScore (afterBlock E maxIters s).n) s.crossScore s.trainScore = true ∧
      t = ((afterBlock E maxIters s).tickNaN.tickScores).revertTo s.lastNet := by
  unfold loopBody at h
  simp only at h
  split at h
  · cases h
  · rename_i hn
    split at h
    · rename_i hr
      injection h with h
      exact ⟨by simpa using hn, hr, h.symm⟩
    · split at h <;> cases h

theorem loopBody_reachedMax (E : Ops Net V) (maxIters : Int) (s : LoopState Net V)
    (t : Trainer Net) (h : loopBody E maxIters s = Outcome.reachedMax t) :
    E.containsNaN (afterBlock E maxIters s).n = false ∧
      revertTest (E.CrossScore (afterBlock E maxIters s).n)
        (E.TrainingScore (afterBlock E maxIters s).n) s.crossScore s.trainScore = false ∧
      wrapInt (s.iters + nextAmount maxIters s.iters) = maxIters ∧
      t = (afterBlock E maxIters s).tickNaN.tickScores := by
  unfold loopBody at h
  simp only at h
  split at h
  · cases h
  · rename_i hn
    split at h
    · cases h
    · rename_i hr
      split at h
      · rename_i hi
        injection h with h
        exact ⟨by simpa using hn, by simpa using hr, hi, h.symm⟩
      · cases h

theorem loopBody_next (E : Ops Net V) (maxIters : Int) (s s1 : LoopState Net V)
    (h : loopBody E maxIters s = Outcome.next s1) :
    E.containsNaN (afterBlock E maxIters s).n = false ∧
      revertTest (E.CrossScore (afterBlock E maxIters s).n)
        (E.TrainingScore (afterBlock E maxIters s).n) s.crossScore s.trainScore = false ∧
      wrapInt (s.iters + nextAmount maxIters s.iters) ≠ maxIters ∧
      s1 = { t := (afterBlock E maxIters s).tickNaN.tickScores.tickCopy
             iters := wrapInt (s.iters + nextAmount maxIters s.iters)
             crossScore := E.CrossScore (afterBlock E maxIters s).n
             trainScore := E.TrainingScore (afterBlock E maxIters s).n
             lastNet := E.Copy (afterBlock E maxIters s).n } := by
  unfold loopBody at h
  simp only at h
  split at h
  · cases h
  · rename_i hn
    split at h
    · cases h
    · rename_i hr
      split at h
      · cases h
      · rename_i hi
        injection h with h
        exact ⟨by simpa using hn, by simpa using hr, hi, h.symm⟩

/-! ## Comparisons of float64 values -/

theorem Float64.ge_of_not_lt (a b : Float64 V) (ha : a ≠ Float64.nan) (hb : b ≠ Float64.nan)
    (h : Float64.lt a b = false) : Float64.ge a b = true := by
  cases a with
  | nan => exact absurd rfl ha
  | val x =>
    cases b with
    | nan => exact absurd rfl hb
    | val y =>
      simp only [Float64.lt, decide_eq_false_iff_not, not_lt] at h
      simpa [Float64.ge] using h

theorem Float64.ge_trans (a b c : Float64 V) (h1 : Float64.ge a b = true)
    (h2 : Float64.ge b c = true) : Float64.ge a c = true := by
  cases a <;> cases b <;> cases c <;> simp_all [Float64.ge]
  exact le_trans h2 h1

theorem Float64.ge_refl (a : Float64 V) (ha : a ≠ Float64.nan) : Float64.ge a a = true := by
  cases a with
  | nan => exact absurd rfl ha
  | val x => simp [Float64.ge]

theorem revertTest_eq_false (nc nt c t : Float64 V) (h : revertTest nc nt c t = false) :
    Float64.lt nc c = false ∧ (Float64.eq nc c = true → Float64.eq nt t = false) := by
  unfold revertTest at h
  simp only [Bool.or_eq_false_iff, Bool.and_eq_false_iff] at h
  refine ⟨h.2, fun he => ?_⟩
  rcases h.1 with h1 | h1
  · rw [he] at h1; cases h1
  · exact h1

/-! ## Trainer.Train while no `int` operation wraps -/

theorem two_pow_ge (fuel : Nat) (h : 52 ≤ fuel) :
    (4611686018427387904 : Int) ≤ 2000 * 2 ^ fuel := by
  have h1 : (2 : Int) ^ 52 ≤ 2 ^ fuel := pow_le_pow_right₀ (by norm_num) h
  have h2 : (2 : Int) ^ 52 = 4503599627370496 := by norm_num
  omega

theorem afterBlock_n (E : Ops Net V) (maxIters : Int) (s : LoopState Net V) :
    (afterBlock E maxIters s).calls.runAllSamples =
      s.t.calls.runAllSamples + (nextAmount maxIters s.iters).toNat := rfl

theorem runEpochs_calls (E : Ops Net V) (k : Int) (t : Trainer Net) :
    (runEpochs E k t).calls.runAllSamples = t.calls.runAllSamples + k.toNat := rfl

/-- While `maxIters` is at most 2^62, `Trainer.Train` returns and has called
`runAllSamples` at most `maxIters` times -/
theorem Train_epochs_le_of_small (E : Ops Net V) (fuel : Nat) (maxIters : Int) (t : Trainer Net)
    (h0 : 0 ≤ maxIters) (hmax : maxIters ≤ 4611686018427387904) (hfuel : 52 ≤ fuel) :
    ∃ t1, Trainer.Train E fuel maxIters t = some t1 ∧
      t1.calls.runAllSamples ≤ t.calls.runAllSamples + maxIters.toNat := by
  unfold Trainer.Train initialIters InitialIterationCount
  by_cases hle : 2000 > maxIters
  · refine ⟨runEpochs E maxIters t, by simp [trainRest, hle], ?_⟩
    rw [runEpochs_calls]
  · rw [if_neg hle]
    unfold trainRest
    by_cases he : (2000 : Int) = maxIters
    · refine ⟨_, by rw [if_pos he], ?_⟩
      rw [runEpochs_calls]
      omega
    · rw [if_neg he]
      by_cases hn : E.containsNaN (runEpochs E 2000 t).n = true
      · refine ⟨_, by rw [if_pos hn], ?_⟩
        simp only [Trainer.tickNaN, runEpochs_calls]
        omega
      · rw [if_neg hn]
        refine trainLoop_total E maxIters
          (fun s => s.t.calls.runAllSamples = t.calls.runAllSamples + s.iters.toNat)
          (fun t1 => t1.calls.runAllSamples ≤ t.calls.runAllSamples + maxIters.toNat) hmax
          ?_ ?_ ?_ ?_ fuel _ ?_ ?_ ?_ ?_
        · intro s s1 hP hpos hlt hb
          obtain ⟨_, _, hne, rfl⟩ := loopBody_next E maxIters s s1 hb
          simp only [Trainer.tickNaN, Trainer.tickScores, Trainer.tickCopy, afterBlock_n, hP]
          rw [nextAmount_of_small maxIters s.iters hpos hlt hmax]
          split <;>
            rw [wrapInt_of_range _ (by unfold intMin; omega) (by unfold intMax; omega)] <;> omega
        · intro s t1 hP hpos hlt hb
          obtain ⟨_, rfl⟩ := loopBody_diverged E maxIters s t1 hb
          simp only [Trainer.tickNaN, afterBlock_n, hP]
          rw [nextAmount_of_small maxIters s.iters hpos hlt hmax]
          split <;> omega
        · intro s t1 hP hpos hlt hb
          obtain ⟨_, _, rfl⟩ := loopBody_reverted E maxIters s t1 hb
          simp only [Trainer.tickNaN, Trainer.tickScores, Trainer.revertTo, afterBlock_n, hP]
          rw [nextAmount_of_small maxIters s.iters hpos hlt hmax]
          split <;> omega
        · intro s t1 hP hpos hlt hb
          obtain ⟨_, _, _, rfl⟩ := loopBody_reachedMax E maxIters s t1 hb
          simp only [Trainer.tickNaN, Trainer.tickScores, afterBlock_n, hP]
          rw [nextAmount_of_small maxIters s.iters hpos hlt hmax]
          split <;> omega
        · simp only [firstLoopState, Trainer.tickNaN, Trainer.tickScores, Trainer.tickCopy,
            runEpochs_calls]
        · show (0 : Int) < 2000
          norm_num
        · show (2000 : Int) < maxIters
          omega
        · show maxIters ≤ 2000 * 2 ^ fuel
          exact le_trans hmax (two_pow_ge fuel hfuel)

/-! ## C2 : cross-validation score after `Trainer.Train` -/

theorem initialIters_of_le (maxIters : Int) (h : maxIters ≤ 2000) :
    initialIters maxIters = maxIters := by
  unfold initialIters InitialIterationCount
  split <;> omega

theorem initialIters_of_gt (maxIters : Int) (h : 2000 < maxIters) :
    initialIters maxIters = 2000 := by
  unfold initialIters InitialIterationCount
  split <;> omega

/-- C2 (as stated, refuted): with `dropOps` the network is sound after the
initial block of 2000 epochs, where its cross-validation score is 1, and
contains NaN after the next block; `Trainer.Train(6400)` returns with that
network in place, whose cross-validation score 0 is lower -/
theorem Train_cross_score_lower_after_divergence :
    Trainer.Train dropOps 2 6400 freshTrainer
        = some { n := 4000, stepSize := 1,
                 calls := { runAllSamples := 4000, containsNaN := 2, CrossScore := 1,
                            TrainingScore := 1, Copy := 1, revert := 0 } }
      ∧ dropOps.CrossScore (runEpochs dropOps (initialIters 6400) freshTrainer).n
          = Float64.val 1
      ∧ dropOps.CrossScore 4000 = Float64.val 0
      ∧ Float64.lt (dropOps.CrossScore 4000)
          (dropOps.CrossScore (runEpochs dropOps (initialIters 6400) freshTrainer).n) = true := by
  have hi : (runEpochs dropOps (initialIters 6400) freshTrainer).n = 2000 := by
    simp [runEpochs, initialIters, InitialIterationCount, dropOps, freshTrainer, iterate_add_one]
  refine ⟨?_, ?_, ?_, ?_⟩
  · simp [Trainer.Train, trainRest, firstLoopState, trainLoop, loopBody, initialIters, InitialIterationCount,
      runEpochs, afterBlock, dropOps, freshTrainer, nextAmount, wrapInt, Trainer.tickNaN,
      Trainer.tickScores, Trainer.tickCopy, iterate_add_one, Calls.zero]
  · rw [hi]; simp [dropOps]
  · simp [dropOps]
  · rw [hi]; simp [dropOps, Float64.lt]

/-- C2 (amended): for every `maxIters` up to 2^62, when the cross-validation
score is never NaN and `Copy` keeps it, `Trainer.Train` returns, and if the
network then in place does not contain NaN its cross-validation score is not
lower than the one of the network right after the initial block -/
theorem Train_cross_score_not_lower (E : Ops Net V) (fuel : Nat) (maxIters : Int)
    (t : Trainer Net) (hmax : maxIters ≤ 4611686018427387904) (hfuel : 52 ≤ fuel)
    (hnan : ∀ n, E.CrossScore n ≠ Float64.nan)
    (hcopy : ∀ n, E.CrossScore (E.Copy n) = E.CrossScore n) :
    ∃ t1, Trainer.Train E fuel maxIters t = some t1 ∧
      (E.containsNaN t1.Network = false →
        Float64.ge (E.CrossScore t1.Network)
          (E.CrossScore (runEpochs E (initialIters maxIters) t).n) = true) := by
  unfold Trainer.Train trainRest
  simp only
  by_cases he : initialIters maxIters = maxIters
  · exact ⟨_, by rw [if_pos he], fun _ => Float64.ge_refl _ (hnan _)⟩
  · rw [if_neg he]
    have hlt : (2000 : Int) < maxIters := by
      by_contra hc
      exact he (initialIters_of_le maxIters (by omega))
    have h2000 : initialIters maxIters = 2000 := initialIters_of_gt maxIters hlt
    by_cases hn : E.containsNaN (runEpochs E (initialIters maxIters) t).n = true
    · exact ⟨(runEpochs E (initialIters maxIters) t).tickNaN, by rw [if_pos hn],
        fun _ => Float64.ge_refl _ (hnan _)⟩
    · rw [if_neg hn]
      refine trainLoop_total E maxIters
        (fun s => E.CrossScore s.lastNet = s.crossScore ∧
          Float64.ge s.crossScore
            (E.CrossScore (runEpochs E (initialIters maxIters) t).n) = true)
        (fun t1 => E.containsNaN t1.Network = false →
          Float64.ge (E.CrossScore t1.Network)
            (E.CrossScore (runEpochs E (initialIters maxIters) t).n) = true) hmax
        ?_ ?_ ?_ ?_ fuel _ ?_ ?_ ?_ ?_
      · intro s s1 hP _ _ hb
        obtain ⟨_, hr, _, rfl⟩ := loopBody_next E maxIters s s1 hb
        refine ⟨hcopy _, ?_⟩
        exact Float64.ge_trans _ _ _
          (Float64.ge_of_not_lt _ _ (hnan _) (hP.1 ▸ hnan _) (revertTest_eq_false _ _ _ _ hr).1)
          hP.2
      · intro s t1 _ _ _ hb
        obtain ⟨hd, rfl⟩ := loopBody_diverged E maxIters s t1 hb
        intro hc
        simp only [Trainer.Network, Trainer.tickNaN] at hc
        rw [hd] at hc
        cases hc
      · intro s t1 hP _ _ hb
        obtain ⟨_, _, rfl⟩ := loopBody_reverted E maxIters s t1 hb
        intro _
        simp only [Trainer.Network, Trainer.revertTo]
        rw [hP.1]
        exact hP.2
      · intro s t1 hP _ _ hb
        obtain ⟨_, hr, _, rfl⟩ := loopBody_reachedMax E maxIters s t1 hb
        intro _
        exact Float64.ge_trans _ _ _
          (Float64.ge_of_not_lt _ _ (hnan _) (hP.1 ▸ hnan _) (revertTest_eq_false _ _ _ _ hr).1)
          hP.2
      · exact ⟨hcopy _, Float64.ge_refl _ (hnan _)⟩
      · show 0 < initialIters maxIters
        omega
      · show initialIters maxIters < maxIters
        omega
      · show maxIters ≤ initialIters maxIters * 2 ^ fuel
        rw [h2000]
        exact le_trans hmax (two_pow_ge fuel hfuel)

/-- C2 (amended), at `Trainer.Train(6400)` with `upOps` -/
theorem Train_cross_score_not_lower_witness :
    ∃ t1, Trainer.Train upOps 52 6400 freshTrainer = some t1 ∧
      (upOps.containsNaN t1.Network = false →
        Float64.ge (upOps.CrossScore t1.Network)
          (upOps.CrossScore (runEpochs upOps (initialIters 6400) freshTrainer).n) = true) :=
  Train_cross_score_not_lower upOps 52 6400 freshTrainer (by norm_num) (by norm_num)
    (fun n => by simp [upOps]) (fun n => rfl)

/-! ## C5, C6, C7 : the checkpoint after a doubling block -/

/-- C5: at a checkpoint where the network does not contain NaN, the pass ends
in the revert exactly when the new cross-validation score is strictly lower
than the stored one or both new scores equal the stored ones; the Trainer
then returned holds `lastNet`; and `lastNet` is the copy made when the loop was
entered or at the last pass that was accepted -/
theorem loopBody_reverted_iff (E : Ops Net V) (maxIters : Int) (fuel : Nat)
    (s : LoopState Net V) (hn : E.containsNaN (afterBlock E maxIters s).n = false) :
    ((∃ t1, loopBody E maxIters s = Outcome.reverted t1) ↔
        (Float64.lt (E.CrossScore (afterBlock E maxIters s).n) s.crossScore = true ∨
          (Float64.eq (E.CrossScore (afterBlock E maxIters s).n) s.crossScore = true ∧
            Float64.eq (E.TrainingScore (afterBlock E maxIters s).n) s.trainScore = true)))
      ∧ (∀ t1, loopBody E maxIters s = Outcome.reverted t1 →
          t1.Network = s.lastNet ∧ trainLoop E maxIters (fuel + 1) s = some t1)
      ∧ (∀ s1, loopBody E maxIters s = Outcome.next s1 →
          s1.lastNet = E.Copy (afterBlock E maxIters s).n ∧
            s1.crossScore = E.CrossScore (afterBlock E maxIters s).n ∧
            s1.trainScore = E.TrainingScore (afterBlock E maxIters s).n)
      ∧ (∀ iters t1, (firstLoopState E iters t1).lastNet = E.Copy t1.n ∧
          (firstLoopState E iters t1).crossScore = E.CrossScore t1.n ∧
          (firstLoopState E iters t1).trainScore = E.TrainingScore t1.n) := by
  refine ⟨⟨?_, ?_⟩, ?_, ?_, fun _ _ => ⟨rfl, rfl, rfl⟩⟩
  · rintro ⟨t1, h⟩
    obtain ⟨_, hr, _⟩ := loopBody_reverted E maxIters s t1 h
    unfold revertTest at hr
    simp only [Bool.or_eq_true, Bool.and_eq_true] at hr
    rcases hr with hr | hr
    · exact Or.inr hr
    · exact Or.inl hr
  · intro h
    have hr : revertTest (E.CrossScore (afterBlock E maxIters s).n)
        (E.TrainingScore (afterBlock E maxIters s).n) s.crossScore s.trainScore = true := by
      unfold revertTest
      simp only [Bool.or_eq_true, Bool.and_eq_true]
      rcases h with h | h
      · exact Or.inr h
      · exact Or.inl h
    refine ⟨((afterBlock E maxIters s).tickNaN.tickScores).revertTo s.lastNet, ?_⟩
    simp only [loopBody, hn, Trainer.tickNaN, Trainer.tickScores, hr, if_true,
      Bool.false_eq_true, if_false]
  · intro t1 h
    obtain ⟨_, _, rfl⟩ := loopBody_reverted E maxIters s t1 h
    exact ⟨rfl, by simp only [trainLoop, h]⟩
  · intro s1 h
    obtain ⟨_, _, _, rfl⟩ := loopBody_next E maxIters s s1 h
    exact ⟨rfl, rfl, rfl⟩

/-- C5, at the first checkpoint of `Trainer.Train(6400)` with `upOps` -/
theorem loopBody_reverted_iff_witness :
    ((∃ t1, loopBody upOps 6400 (upState 2000 1) = Outcome.reverted t1) ↔
        (Float64.lt (upOps.CrossScore (afterBlock upOps 6400 (upState 2000 1)).n)
            (upState 2000 1).crossScore = true ∨
          (Float64.eq (upOps.CrossScore (afterBlock upOps 6400 (upState 2000 1)).n)
              (upState 2000 1).crossScore = true ∧
            Float64.eq (upOps.TrainingScore (afterBlock upOps 6400 (upState 2000 1)).n)
              (upState 2000 1).trainScore = true)))
      ∧ (∀ t1, loopBody upOps 6400 (upState 2000 1) = Outcome.reverted t1 →
          t1.Network = (upState 2000 1).lastNet ∧
            trainLoop upOps 6400 (0 + 1) (upState 2000 1) = some t1)
      ∧ (∀ s1, loopBody upOps 6400 (upState 2000 1) = Outcome.next s1 →
          s1.lastNet = upOps.Copy (afterBlock upOps 6400 (upState 2000 1)).n ∧
            s1.crossScore = upOps.CrossScore (afterBlock upOps 6400 (upState 2000 1)).n ∧
            s1.trainScore = upOps.TrainingScore (afterBlock upOps 6400 (upState 2000 1)).n)
      ∧ (∀ iters t1, (firstLoopState upOps iters t1).lastNet = upOps.Copy t1.n ∧
          (firstLoopState upOps iters t1).crossScore = upOps.CrossScore t1.n ∧
          (firstLoopState upOps iters t1).trainScore = upOps.TrainingScore t1.n) :=
  loopBody_reverted_iff upOps 6400 0 (upState 2000 1) rfl

/-- C6 (as stated, refuted): in `Trainer.Train(6400)` with `flatOps` the state
after the first doubling block is accepted, and the loop goes round again,
although the cross-validation score is the stored one and the training score
has fallen from 2 to 1 -/
theorem accepted_with_lower_training_score :
    Trainer.Train flatOps 2 6400 freshTrainer
        = trainLoop flatOps 6400 2 (firstLoopState flatOps 2000 (trainedFor 2000))
      ∧ loopBody flatOps 6400 (firstLoopState flatOps 2000 (trainedFor 2000))
          = Outcome.next
              { t := { n := 4000, stepSize := 1,
                       calls := { runAllSamples := 4000, containsNaN := 2, CrossScore := 2,
                                  TrainingScore := 2, Copy := 2, revert := 0 } }
                iters := 4000
                crossScore := Float64.val 1
                trainScore := Float64.val 1
                lastNet := 4000 }
      ∧ (afterBlock flatOps 6400 (firstLoopState flatOps 2000 (trainedFor 2000))).n = 4000
      ∧ (firstLoopState flatOps 2000 (trainedFor 2000)).crossScore = Float64.val 1
      ∧ (firstLoopState flatOps 2000 (trainedFor 2000)).trainScore = Float64.val 2
      ∧ flatOps.CrossScore 4000 = Float64.val 1
      ∧ flatOps.TrainingScore 4000 = Float64.val 1
      ∧ ¬ (Float64.gt (flatOps.CrossScore 4000)
              (firstLoopState flatOps 2000 (trainedFor 2000)).crossScore = true ∨
            (Float64.eq (flatOps.CrossScore 4000)
                (firstLoopState flatOps 2000 (trainedFor 2000)).crossScore = true ∧
              Float64.gt (flatOps.TrainingScore 4000)
                (firstLoopState flatOps 2000 (trainedFor 2000)).trainScore = true)) := by
  refine ⟨?_, ?_, ?_, ?_, ?_, ?_, ?_, ?_⟩
  · simp [Trainer.Train, trainRest, initialIters, InitialIterationCount, runEpochs, flatOps,
      freshTrainer, trainedFor, iterate_add_one, Calls.zero]
  · simp [loopBody, firstLoopState, afterBlock, runEpochs, nextAmount, wrapInt, flatOps,
      trainedFor, iterate_add_one, revertTest, Float64.eq, Float64.lt, Trainer.tickNaN,
      Trainer.tickScores, Trainer.tickCopy]
  · simp [firstLoopState, afterBlock, runEpochs, nextAmount, wrapInt, flatOps, trainedFor,
      iterate_add_one, Trainer.tickNaN, Trainer.tickScores, Trainer.tickCopy]
  · simp [firstLoopState, flatOps]
  · simp [firstLoopState, flatOps, trainedFor]
  · simp [flatOps]
  · simp [flatOps]
  · simp [firstLoopState, flatOps, trainedFor, Float64.gt, Float64.eq]

/-- C6 (amended): when the state after a doubling block is accepted and neither
the stored nor the new cross-validation score is NaN, either the new
cross-validation score is strictly higher than the stored one, or it is equal
to it and the new training score is not equal to the stored training score -/
theorem accepted_scores (E : Ops Net V) (maxIters : Int) (s : LoopState Net V)
    (hc : s.crossScore ≠ Float64.nan)
    (hnc : E.CrossScore (afterBlock E maxIters s).n ≠ Float64.nan)
    (hacc : (∃ s1, loopBody E maxIters s = Outcome.next s1) ∨
      (∃ t1, loopBody E maxIters s = Outcome.reachedMax t1)) :
    Float64.gt (E.CrossScore (afterBlock E maxIters s).n) s.crossScore = true ∨
      (Float64.eq (E.CrossScore (afterBlock E maxIters s).n) s.crossScore = true ∧
        Float64.eq (E.TrainingScore (afterBlock E maxIters s).n) s.trainScore = false) := by
  have hr : revertTest (E.CrossScore (afterBlock E maxIters s).n)
      (E.TrainingScore (afterBlock E maxIters s).n) s.crossScore s.trainScore = false := by
    rcases hacc with ⟨s1, h⟩ | ⟨t1, h⟩
    · exact (loopBody_next E maxIters s s1 h).2.1
    · exact (loopBody_reachedMax E maxIters s t1 h).2.1
  obtain ⟨hlt, heq⟩ := revertTest_eq_false _ _ _ _ hr
  generalize E.CrossScore (afterBlock E maxIters s).n = nc at *
  generalize s.crossScore = c at *
  cases nc with
  | nan => exact absurd rfl hnc
  | val x =>
    cases c with
    | nan => exact absurd rfl hc
    | val y =>
      simp only [Float64.lt, decide_eq_false_iff_not, not_lt] at hlt
      rcases lt_or_eq_of_le hlt with h | h
      · exact Or.inl (by simpa [Float64.gt] using h)
      · exact Or.inr ⟨by simp [Float64.eq, h], heq (by simp [Float64.eq, h])⟩

/-- C6 (amended), at the first checkpoint of `Trainer.Train(6400)` with `upOps` -/
theorem accepted_scores_witness :
    Float64.gt (upOps.CrossScore (afterBlock upOps 6400 (upState 2000 1)).n)
        (upState 2000 1).crossScore = true ∨
      (Float64.eq (upOps.CrossScore (afterBlock upOps 6400 (upState 2000 1)).n)
          (upState 2000 1).crossScore = true ∧
        Float64.eq (upOps.TrainingScore (afterBlock upOps 6400 (upState 2000 1)).n)
          (upState 2000 1).trainScore = false) :=
  accepted_scores upOps 6400 (upState 2000 1) (by simp [upState]) (by simp [upOps])
    (Or.inl ⟨upState (2 * 2000) (1 + 1),
      up_step 6400 2000 1 (by norm_num) (by norm_num) (by unfold intMax; norm_num)⟩)

/-- C7 (as stated, refuted): in `Trainer.Train(6400)` with `riseOps` the
cross-validation score is 1 at every checkpoint, never strictly higher than
the stored one, and no network contains NaN; yet the state after the first
doubling block is accepted and `Train` returns at 6400 epochs without any
revert -/
theorem no_revert_without_higher_cross_score :
    Trainer.Train riseOps 2 6400 freshTrainer
        = some { n := 6400, stepSize := 1,
                 calls := { runAllSamples := 6400, containsNaN := 3, CrossScore := 3,
                            TrainingScore := 3, Copy := 2, revert := 0 } }
      ∧ Trainer.Train riseOps 2 6400 freshTrainer
        = trainLoop riseOps 6400 2 (firstLoopState riseOps 2000 (trainedFor 2000))
      ∧ loopBody riseOps 6400 (firstLoopState riseOps 2000 (trainedFor 2000))
          = Outcome.next
              { t := { n := 4000, stepSize := 1,
                       calls := { runAllSamples := 4000, containsNaN := 2, CrossScore := 2,
                                  TrainingScore := 2, Copy := 2, revert := 0 } }
                iters := 4000
                crossScore := Float64.val 1
                trainScore := Float64.val 4000
                lastNet := 4000 }
      ∧ (afterBlock riseOps 6400 (firstLoopState riseOps 2000 (trainedFor 2000))).n = 4000
      ∧ riseOps.containsNaN 4000 = false
      ∧ Float64.gt (riseOps.CrossScore 4000)
          (firstLoopState riseOps 2000 (trainedFor 2000)).crossScore = false := by
  have h0 : Trainer.Train riseOps 2 6400 freshTrainer
      = trainLoop riseOps 6400 2 (firstLoopState riseOps 2000 (trainedFor 2000)) := by
    simp [Trainer.Train, trainRest, initialIters, InitialIterationCount, runEpochs, riseOps,
      freshTrainer, trainedFor, iterate_add_one, Calls.zero]
  have h1 : loopBody riseOps 6400 (firstLoopState riseOps 2000 (trainedFor 2000))
      = Outcome.next
          { t := { n := 4000, stepSize := 1,
                   calls := { runAllSamples := 4000, containsNaN := 2, CrossScore := 2,
                              TrainingScore := 2, Copy := 2, revert := 0 } }
            iters := 4000
            crossScore := Float64.val 1
            trainScore := Float64.val 4000
            lastNet := 4000 } := by
    simp [loopBody, firstLoopState, afterBlock, runEpochs, nextAmount, wrapInt, riseOps,
      trainedFor, iterate_add_one, revertTest, Float64.eq, Float64.lt, Trainer.tickNaN,
      Trainer.tickScores, Trainer.tickCopy]
  refine ⟨?_, h0, h1, ?_, rfl, ?_⟩
  · rw [h0, trainLoop_succ_next riseOps 6400 1 _ _ h1]
    simp [trainLoop, loopBody, afterBlock, runEpochs, nextAmount, wrapInt, riseOps,
      iterate_add_one, revertTest, Float64.eq, Float64.lt, Trainer.tickNaN, Trainer.tickScores]
  · simp [firstLoopState, afterBlock, runEpochs, nextAmount, wrapInt, riseOps, trainedFor,
      iterate_add_one, Trainer.tickNaN, Trainer.tickScores, Trainer.tickCopy]
  · simp [firstLoopState, riseOps, Float64.gt]

/-- C7 (amended): at a checkpoint where the network does not contain NaN and
neither cross-validation score is NaN, if the new cross-validation score is not
strictly higher than the stored one and, when it is equal to it, the new
training score is equal to the stored one too, the pass ends in the revert:
`Train` returns the Trainer holding `lastNet` -/
theorem reverted_of_not_higher (E : Ops Net V) (maxIters : Int) (fuel : Nat)
    (s : LoopState Net V) (hn : E.containsNaN (afterBlock E maxIters s).n = false)
    (hc : s.crossScore ≠ Float64.nan)
    (hnc : E.CrossScore (afterBlock E maxIters s).n ≠ Float64.nan)
    (hgt : Float64.gt (E.CrossScore (afterBlock E maxIters s).n) s.crossScore = false)
    (heq : Float64.eq (E.CrossScore (afterBlock E maxIters s).n) s.crossScore = true →
      Float64.eq (E.TrainingScore (afterBlock E maxIters s).n) s.trainScore = true) :
    loopBody E maxIters s =
        Outcome.reverted (((afterBlock E maxIters s).tickNaN.tickScores).revertTo s.lastNet)
      ∧ trainLoop E maxIters (fuel + 1) s =
          some (((afterBlock E maxIters s).tickNaN.tickScores).revertTo s.lastNet)
      ∧ (((afterBlock E maxIters s).tickNaN.tickScores).revertTo s.lastNet).Network
          = s.lastNet := by
  have hr : revertTest (E.CrossScore (afterBlock E maxIters s).n)
      (E.TrainingScore (afterBlock E maxIters s).n) s.crossScore s.trainScore = true := by
    unfold revertTest
    generalize E.CrossScore (afterBlock E maxIters s).n = nc at *
    generalize s.crossScore = c at *
    cases nc with
    | nan => exact absurd rfl hnc
    | val x =>
      cases c with
      | nan => exact absurd rfl hc
      | val y =>
        simp only [Float64.gt, decide_eq_false_iff_not, not_lt] at hgt
        rcases lt_or_eq_of_le hgt with h | h
        · simp [Float64.lt, h]
        · have h2 := heq (by simp [Float64.eq, h])
          rw [h2]
          simp [Float64.eq, h]
  have hb : loopBody E maxIters s =
      Outcome.reverted (((afterBlock E maxIters s).tickNaN.tickScores).revertTo s.lastNet) := by
    simp only [loopBody, hn, Trainer.tickNaN, Trainer.tickScores, hr, if_true,
      Bool.false_eq_true, if_false]
  exact ⟨hb, by simp only [trainLoop, hb], rfl⟩

/-- C7 (amended), at the second checkpoint of `Trainer.Train(6400)` with
`flatOps`, where both scores are the stored ones -/
theorem reverted_of_not_higher_witness :
    loopBody flatOps 6400 flatState =
        Outcome.reverted
          (((afterBlock flatOps 6400 flatState).tickNaN.tickScores).revertTo flatState.lastNet)
      ∧ trainLoop flatOps 6400 (0 + 1) flatState =
          some (((afterBlock flatOps 6400 flatState).tickNaN.tickScores).revertTo
            flatState.lastNet)
      ∧ (((afterBlock flatOps 6400 flatState).tickNaN.tickScores).revertTo
          flatState.lastNet).Network = flatState.lastNet :=
  reverted_of_not_higher flatOps 6400 0 flatState rfl (by simp [flatState])
    (by simp [flatOps]) (by simp [flatOps, flatState, Float64.gt])
    (fun _ => by
      simp [flatOps, flatState, afterBlock, runEpochs, nextAmount, wrapInt, iterate_add_one,
        Float64.eq])

/-! ## C8, C9 : the initial block and divergence -/

theorem Train_of_le (E : Ops Net V) (fuel : Nat) (maxIters : Int) (t : Trainer Net)
    (h : maxIters ≤ 2000) : Trainer.Train E fuel maxIters t = some (runEpochs E maxIters t) := by
  unfold Trainer.Train
  simp only [initialIters_of_le maxIters h, trainRest, if_true]

theorem Train_of_gt (E : Ops Net V) (fuel : Nat) (maxIters : Int) (t : Trainer Net)
    (h : 2000 < maxIters) :
    Trainer.Train E fuel maxIters t =
      trainRest E fuel maxIters 2000
        { n := Nat.iterate (E.runAllSamples t.stepSize) 2000 t.n
          stepSize := t.stepSize
          calls := { runAllSamples := t.calls.runAllSamples + 2000
                     containsNaN := t.calls.containsNaN
                     CrossScore := t.calls.CrossScore
                     TrainingScore := t.calls.TrainingScore
                     Copy := t.calls.Copy
                     revert := t.calls.revert } } := by
  unfold Trainer.Train
  simp only [initialIters_of_gt maxIters h]
  rfl

/-- C8: for `maxIters` at most 2000, `Trainer.Train` returns after exactly
`max(maxIters, 0)` epochs on the Trainer's own network, and no other call and
no assignment to `t.n` is made; for `maxIters` above 2000 the rest of `Train`
(line 91 onwards) runs on the Trainer as it is after exactly 2000 epochs -/
theorem Train_initial_block (E : Ops Net V) (fuel : Nat) (maxIters : Int) (t : Trainer Net) :
    (maxIters ≤ 2000 →
        Trainer.Train E fuel maxIters t =
          some { n := Nat.iterate (E.runAllSamples t.stepSize) (max maxIters 0).toNat t.n
                 stepSize := t.stepSize
                 calls := { runAllSamples := t.calls.runAllSamples + (max maxIters 0).toNat
                            containsNaN := t.calls.containsNaN
                            CrossScore := t.calls.CrossScore
                            TrainingScore := t.calls.TrainingScore
                            Copy := t.calls.Copy
                            revert := t.calls.revert } })
      ∧ (2000 < maxIters →
          Trainer.Train E fuel maxIters t =
              trainRest E fuel maxIters 2000
                { n := Nat.iterate (E.runAllSamples t.stepSize) 2000 t.n
                  stepSize := t.stepSize
                  calls := { runAllSamples := t.calls.runAllSamples + 2000
                             containsNaN := t.calls.containsNaN
                             CrossScore := t.calls.CrossScore
                             TrainingScore := t.calls.TrainingScore
                             Copy := t.calls.Copy
                             revert := t.calls.revert } }) := by
  refine ⟨fun h => ?_, fun h => Train_of_gt E fuel maxIters t h⟩
  have hm : (max maxIters 0).toNat = maxIters.toNat := by omega
  rw [Train_of_le E fuel maxIters t h, hm]
  rfl

/-- C8, at `maxIters = 1500` and at `maxIters = 6400` with `upOps` -/
theorem Train_initial_block_witness :
    Trainer.Train upOps 0 1500 freshTrainer =
        some { n := Nat.iterate (upOps.runAllSamples freshTrainer.stepSize)
                      (max (1500 : Int) 0).toNat freshTrainer.n
               stepSize := freshTrainer.stepSize
               calls := { runAllSamples :=
                            freshTrainer.calls.runAllSamples + (max (1500 : Int) 0).toNat
                          containsNaN := freshTrainer.calls.containsNaN
                          CrossScore := freshTrainer.calls.CrossScore
                          TrainingScore := freshTrainer.calls.TrainingScore
                          Copy := freshTrainer.calls.Copy
                          revert := freshTrainer.calls.revert } }
      ∧ Trainer.Train upOps 2 6400 freshTrainer =
          trainRest upOps 2 6400 2000
            { n := Nat.iterate (upOps.runAllSamples freshTrainer.stepSize) 2000 freshTrainer.n
              stepSize := freshTrainer.stepSize
              calls := { runAllSamples := freshTrainer.calls.runAllSamples + 2000
                         containsNaN := freshTrainer.calls.containsNaN
                         CrossScore := freshTrainer.calls.CrossScore
                         TrainingScore := freshTrainer.calls.TrainingScore
                         Copy := freshTrainer.calls.Copy
                         revert := freshTrainer.calls.revert } } :=
  ⟨(Train_initial_block upOps 0 1500 freshTrainer).1 (by norm_num),
    (Train_initial_block upOps 2 6400 freshTrainer).2 (by norm_num)⟩

/-- C9: for `maxIters` above 2000, when the network contains NaN right after the
initial block, or right after the block of a pass of the doubling loop, `Train`
returns there: the Trainer holds the network as the block left it, and since
the block only the call of `containsNaN` has been made (no epoch, no score, no
copy, no revert) -/
theorem Train_returns_diverged_in_place (E : Ops Net V) (fuel : Nat) (maxIters : Int)
    (h : 2000 < maxIters) :
    (∀ t : Trainer Net,
        E.containsNaN (Nat.iterate (E.runAllSamples t.stepSize) 2000 t.n) = true →
        Trainer.Train E fuel maxIters t =
          some { n := Nat.iterate (E.runAllSamples t.stepSize) 2000 t.n
                 stepSize := t.stepSize
                 calls := { runAllSamples := t.calls.runAllSamples + 2000
                            containsNaN := t.calls.containsNaN + 1
                            CrossScore := t.calls.CrossScore
                            TrainingScore := t.calls.TrainingScore
                            Copy := t.calls.Copy
                            revert := t.calls.revert } })
      ∧ (∀ s : LoopState Net V,
          E.containsNaN (afterBlock E maxIters s).n = true →
          trainLoop E maxIters (fuel + 1) s =
            some { n := (afterBlock E maxIters s).n
                   stepSize := s.t.stepSize
                   calls := { runAllSamples := (afterBlock E maxIters s).calls.runAllSamples
                              containsNaN := s.t.calls.containsNaN + 1
                              CrossScore := s.t.calls.CrossScore
                              TrainingScore := s.t.calls.TrainingScore
                              Copy := s.t.calls.Copy
                              revert := s.t.calls.revert } }) := by
  refine ⟨fun t hn => ?_, fun s hn => ?_⟩
  · rw [Train_of_gt E fuel maxIters t h]
    generalize Nat.iterate (E.runAllSamples t.stepSize) 2000 t.n = m at hn ⊢
    unfold trainRest
    rw [if_neg (by omega), if_pos hn]
    rfl
  · have hb : loopBody E maxIters s = Outcome.diverged (afterBlock E maxIters s).tickNaN := by
      simp only [loopBody, hn, if_true]
    simp only [trainLoop, hb]
    rfl

/-- C9, at `Trainer.Train(6400)`: with `earlyNaNOps` the network contains NaN
after the initial block, with `dropOps` after the first doubling block -/
theorem Train_returns_diverged_in_place_witness :
    Trainer.Train earlyNaNOps 0 6400 freshTrainer =
        some { n := Nat.iterate (earlyNaNOps.runAllSamples freshTrainer.stepSize) 2000
                      freshTrainer.n
               stepSize := freshTrainer.stepSize
               calls := { runAllSamples := freshTrainer.calls.runAllSamples + 2000
                          containsNaN := freshTrainer.calls.containsNaN + 1
                          CrossScore := freshTrainer.calls.CrossScore
                          TrainingScore := freshTrainer.calls.TrainingScore
                          Copy := freshTrainer.calls.Copy
                          revert := freshTrainer.calls.revert } }
      ∧ trainLoop dropOps 6400 (0 + 1) (firstLoopState dropOps 2000 (trainedFor 2000)) =
          some { n := (afterBlock dropOps 6400
                        (firstLoopState dropOps 2000 (trainedFor 2000))).n
                 stepSize := (firstLoopState dropOps 2000 (trainedFor 2000)).t.stepSize
                 calls :=
                   { runAllSamples := (afterBlock dropOps 6400
                        (firstLoopState dropOps 2000 (trainedFor 2000))).calls.runAllSamples
                     containsNaN :=
                       (firstLoopState dropOps 2000 (trainedFor 2000)).t.calls.containsNaN + 1
                     CrossScore :=
                       (firstLoopState dropOps 2000 (trainedFor 2000)).t.calls.CrossScore
                     TrainingScore :=
                       (firstLoopState dropOps 2000 (trainedFor 2000)).t.calls.TrainingScore
                     Copy := (firstLoopState dropOps 2000 (trainedFor 2000)).t.calls.Copy
                     revert := (firstLoopState dropOps 2000 (trainedFor 2000)).t.calls.revert } } :=
  ⟨(Train_returns_diverged_in_place earlyNaNOps 0 6400 (by norm_num)).1 freshTrainer
      (by simp [earlyNaNOps, freshTrainer, iterate_add_one]),
    (Train_returns_diverged_in_place dropOps 0 6400 (by norm_num)).2
      (firstLoopState dropOps 2000 (trainedFor 2000))
      (by simp [dropOps, firstLoopState, trainedFor, afterBlock, runEpochs, nextAmount, wrapInt,
        iterate_add_one, Trainer.tickNaN, Trainer.tickScores, Trainer.tickCopy])⟩

/-! ## The search `Train` -/

theorem foldlM_inv {σ α : Type} (f : σ → α → Option σ) (Inv : List α → σ → Prop)
    (hstep : ∀ done x st, Inv done st → ∃ st1, f st x = some st1 ∧ Inv (done ++ [x]) st1) :
    ∀ (l done : List α) (st : σ), Inv done st →
      ∃ st1, List.foldlM f st l = some st1 ∧ Inv (done ++ l) st1 := by
  intro l
  induction l with
  | nil =>
    intro done st h
    exact ⟨st, rfl, by simpa using h⟩
  | cons x l ih =>
    intro done st h
    obtain ⟨st1, h1, h2⟩ := hstep done x st h
    obtain ⟨st2, h3, h4⟩ := ih (done ++ [x]) st1 h2
    refine ⟨st2, ?_, by simpa using h4⟩
    rw [List.foldlM_cons, h1]
    exact h3

theorem Train_default_returns (E : Ops Net V) (fuel : Nat) (t : Trainer Net) :
    ∃ t1, Trainer.Train E (fuel + 2) DefaultMaxIterations t = some t1 := by
  unfold DefaultMaxIterations
  rw [Train_of_gt E (fuel + 2) 6400 t (by norm_num)]
  generalize Nat.iterate (E.runAllSamples t.stepSize) 2000 t.n = m
  unfold trainRest
  rw [if_neg (by norm_num)]
  split
  · exact ⟨_, rfl⟩
  · have hp : (6400 : Int) ≤ 2000 * 2 ^ (fuel + 2) := by
      have h1 : (1 : Int) ≤ 2 ^ fuel := one_le_pow₀ (by norm_num)
      have h2 : (2 : Int) ^ (fuel + 2) = 4 * 2 ^ fuel := by ring
      rw [h2]
      omega
    obtain ⟨t1, h, _⟩ := trainLoop_total E 6400 (fun _ => True) (fun _ => True) (by norm_num)
      (fun _ _ _ _ _ _ => trivial) (fun _ _ _ _ _ _ => trivial) (fun _ _ _ _ _ _ => trivial)
      (fun _ _ _ _ _ _ => trivial) (fuel + 2) (firstLoopState E 2000 _) trivial
      (by show (0 : Int) < 2000; norm_num) (by show (2000 : Int) < 6400; norm_num) hp
    exact ⟨t1, h⟩

theorem Float64.eq_val (a b : Float64 V) (h : Float64.eq a b = true) : a = b := by
  cases a <;> cases b <;> simp_all [Float64.eq]

theorem Float64.ge_of_gt (a b : Float64 V) (h : Float64.gt a b = true) :
    Float64.ge a b = true := by
  cases a <;> cases b <;> simp_all [Float64.gt, Float64.ge]
  exact le_of_lt h

theorem Float64.gt_of_gt_of_ge (a b c : Float64 V) (h1 : Float64.gt a b = true)
    (h2 : Float64.ge b c = true) : Float64.gt a c = true := by
  cases a <;> cases b <;> cases c <;> simp_all [Float64.gt, Float64.ge]
  exact lt_of_le_of_lt h2 h1

theorem Float64.gt_trans (a b c : Float64 V) (h1 : Float64.gt a b = true)
    (h2 : Float64.gt b c = true) : Float64.gt a c = true :=
  Float64.gt_of_gt_of_ge a b c h1 (Float64.ge_of_gt b c h2)

theorem notBetter_self (E : Ops Net V) (n : Net) : notBetter E n n := by
  unfold notBetter
  generalize E.CrossScore n = c
  generalize E.TrainingScore n = t
  cases c <;> cases t <;> simp [Float64.gt, Float64.eq]

theorem notBetter_of_not_replace (E : Ops Net V) (n b : Net)
    (h : replaceTest (E.CrossScore n) (E.TrainingScore n) (E.CrossScore b)
      (E.TrainingScore b) false = false) : notBetter E n b := by
  unfold notBetter
  unfold replaceTest at h
  simp only [Bool.or_false, Bool.or_eq_false_iff, Bool.and_eq_false_iff] at h
  refine ⟨h.2, fun hc => ?_⟩
  rcases h.1 with h1 | h1
  · rw [hc.1] at h1; cases h1
  · rw [Float64.ge_of_gt _ _ hc.2] at h1; cases h1

theorem notBetter_of_replace (E : Ops Net V) (x b n : Net) (hx : notBetter E x b)
    (h : (Float64.eq (E.CrossScore n) (E.CrossScore b) = true ∧
        Float64.ge (E.TrainingScore n) (E.TrainingScore b) = true) ∨
      Float64.gt (E.CrossScore n) (E.CrossScore b) = true) : notBetter E x n := by
  unfold notBetter at hx ⊢
  rcases h with ⟨h1, h2⟩ | h1
  · rw [Float64.eq_val _ _ h1]
    exact ⟨hx.1, fun hc => hx.2 ⟨hc.1, Float64.gt_of_gt_of_ge _ _ _ hc.2 h2⟩⟩
  · refine ⟨?_, fun hc => ?_⟩
    · cases hg : Float64.gt (E.CrossScore x) (E.CrossScore n) with
      | false => rfl
      | true =>
        have := Float64.gt_trans _ _ _ hg h1
        rw [hx.1] at this
        cases this
    · rw [Float64.eq_val _ _ hc.1, h1] at hx
      cases hx.1

theorem replaceTest_true_of_some (cn tn cb tb : Float64 V)
    (h : replaceTest cn tn cb tb false = true) :
    (Float64.eq cn cb = true ∧ Float64.ge tn tb = true) ∨ Float64.gt cn cb = true := by
  unfold replaceTest at h
  simpa [Bool.or_eq_true, Bool.and_eq_true] using h

theorem searchBody_inv (C : Search Data DS Net V Rng) (fuel : Nat) (ds : DS) (done : List Int)
    (p : Int) (st : SearchState DS Net V Rng)
    (h : SearchInv (C.ops ds) st ∧ LogInv C (fuel + 2) ds done st) :
    ∃ st1, searchBody C (fuel + 2) ds st p = some st1 ∧
      SearchInv (C.ops ds) st1 ∧ LogInv C (fuel + 2) ds (done ++ [p]) st1 := by
  obtain ⟨⟨hnone, hsome⟩, hlog1, hlog2⟩ := h
  obtain ⟨t, ht⟩ := Train_default_returns (C.ops ds) fuel
    { n := (C.NewTrainer ds ((2 : ℚ) ^ p) st.rng).1, stepSize := (2 : ℚ) ^ p,
      calls := Calls.zero }
  have hlog : ∀ st1 : SearchState DS Net V Rng,
      st1.trials = st.trials ++
        [{ stepPower := p, ds := ds, stepSize := (2 : ℚ) ^ p, rng := st.rng,
           built := (C.NewTrainer ds ((2 : ℚ) ^ p) st.rng).1,
           maxIters := DefaultMaxIterations, trainer := t }] →
      LogInv C (fuel + 2) ds (done ++ [p]) st1 := by
    intro st1 h1
    unfold LogInv
    rw [h1]
    refine ⟨by simp [hlog1], fun tr htr => ?_⟩
    rcases List.mem_append.mp htr with h2 | h2
    · exact hlog2 tr h2
    · rw [List.mem_singleton.mp h2]
      exact ⟨rfl, rfl, rfl, rfl, ht⟩
  have hcand : ∀ st1 : SearchState DS Net V Rng,
      st1.trials = st.trials ++
        [{ stepPower := p, ds := ds, stepSize := (2 : ℚ) ^ p, rng := st.rng,
           built := (C.NewTrainer ds ((2 : ℚ) ^ p) st.rng).1,
           maxIters := DefaultMaxIterations, trainer := t }] →
      ∀ n, n ∈ st1.candidates ↔ n ∈ st.candidates ∨ n = t.n := by
    intro st1 h1 n
    unfold SearchState.candidates
    rw [h1]
    simp [Trainer.Network]
  unfold searchBody
  simp only [ht]
  by_cases hn : (C.ops ds).containsNaN t.Network = true
  · rw [if_pos hn]
    refine ⟨_, rfl, ⟨?_, ?_⟩, hlog _ rfl⟩
    · intro hb n hmem
      rcases (hcand _ rfl n).mp hmem with h1 | h1
      · exact hnone hb n h1
      · rw [h1]; exact hn
    · intro b hb
      obtain ⟨h1, h2, h3, h4, h5⟩ := hsome b hb
      refine ⟨(hcand _ rfl b).mpr (Or.inl h1), h2, h3, h4, fun n hmem hnn => ?_⟩
      rcases (hcand _ rfl n).mp hmem with h6 | h6
      · exact h5 n h6 hnn
      · rw [h6] at hnn
        rw [show t.Network = t.n from rfl, hnn] at hn
        cases hn
  · rw [if_neg hn]
    have hn2 : (C.ops ds).containsNaN t.n = false := by
      simpa [Trainer.Network] using hn
    by_cases hr : replaceTest ((C.ops ds).CrossScore t.Network)
        ((C.ops ds).TrainingScore t.Network) st.bestCrossScore st.bestTrainScore
        st.best.isNone = true
    · rw [if_pos hr]
      refine ⟨_, rfl, ⟨?_, ?_⟩, hlog _ rfl⟩
      · intro hb
        cases hb
      intro b hb
      have hbt : b = t.n := by
        simp only [Trainer.Network, Option.some.injEq] at hb
        exact hb.symm
      rw [hbt]
      refine ⟨(hcand _ rfl t.n).mpr (Or.inr rfl), hn2, rfl, rfl, fun n hmem hnn => ?_⟩
      rcases (hcand _ rfl n).mp hmem with h6 | h6
      · cases hbest : st.best with
        | none =>
          rw [hnone hbest n h6] at hnn
          cases hnn
        | some b0 =>
          obtain ⟨_, _, h3, h4, h5⟩ := hsome b0 hbest
          rw [hbest, h3, h4] at hr
          exact notBetter_of_replace (C.ops ds) n b0 t.n (h5 n h6 hnn)
            (replaceTest_true_of_some _ _ _ _ hr)
      · rw [h6]
        exact notBetter_self (C.ops ds) t.n
    · rw [if_neg hr]
      have hr2 : replaceTest ((C.ops ds).CrossScore t.Network)
          ((C.ops ds).TrainingScore t.Network) st.bestCrossScore st.bestTrainScore
          st.best.isNone = false := by
        simpa using hr
      refine ⟨_, rfl, ⟨?_, ?_⟩, hlog _ rfl⟩
      · intro hb
        have hb2 : st.best = none := hb
        rw [hb2] at hr2
        simp [replaceTest] at hr2
      · intro b hb
        have hb2 : st.best = some b := hb
        obtain ⟨h1, h2, h3, h4, h5⟩ := hsome b hb2
        refine ⟨(hcand _ rfl b).mpr (Or.inl h1), h2, h3, h4, fun n hmem hnn => ?_⟩
        rcases (hcand _ rfl n).mp hmem with h6 | h6
        · exact h5 n h6 hnn
        · rw [h6]
          rw [hb2, h3, h4] at hr2
          exact notBetter_of_not_replace (C.ops ds) t.n b hr2

theorem searchLoop_inv [Zero V] (C : Search Data DS Net V Rng) (fuel : Nat) (rng : Rng)
    (data : Data) :
    ∃ st, searchLoop C (fuel + 2) rng data = some st ∧
      SearchInv (C.ops (C.NewDataSet data)) st ∧
      LogInv C (fuel + 2) (C.NewDataSet data) (forRange (-20) 10) st := by
  have h := foldlM_inv (searchBody C (fuel + 2) (C.NewDataSet data))
    (fun done st => SearchInv (C.ops (C.NewDataSet data)) st ∧
      LogInv C (fuel + 2) (C.NewDataSet data) done st)
    (fun done x st hi => searchBody_inv C fuel (C.NewDataSet data) done x st hi)
    (forRange (-20) 10) [] (searchStart rng)
    ⟨⟨fun _ n hn => by simp [SearchState.candidates, searchStart] at hn,
        fun b hb => by simp [searchStart] at hb⟩,
      rfl, fun tr htr => by simp [searchStart] at htr⟩
  simpa [searchLoop] using h

theorem forRange_search :
    forRange (-20) 10 =
      [-20, -19, -18, -17, -16, -15, -14, -13, -12, -11, -10, -9, -8, -7, -6, -5, -4, -3, -2,
        -1, 0, 1, 2, 3, 4, 5, 6, 7, 8, 9] := by
  decide

theorem Train_eq_best [Zero V] (C : Search Data DS Net V Rng) (fuel : Nat) (rng : Rng)
    (data : Data) (st : SearchState DS Net V Rng) (h : searchLoop C fuel rng data = some st) :
    Train C fuel rng data = some st.best := by
  unfold Train
  rw [h]
  rfl

/-! ## C3, C4, C10 : what the search returns -/

/-- C3: the search returns, and when it returns a model, that model is one of
the networks looked at, it does not contain NaN, and no network looked at that
does not contain NaN has a strictly higher cross-validation score, or an equal
cross-validation score with a strictly higher training score -/
theorem Train_returns_best_candidate [Zero V] (C : Search Data DS Net V Rng) (fuel : Nat)
    (rng : Rng) (data : Data) :
    ∃ st, searchLoop C (fuel + 2) rng data = some st ∧
      Train C (fuel + 2) rng data = some st.best ∧
      ∀ m, Train C (fuel + 2) rng data = some (some m) →
        m ∈ st.candidates ∧ (C.ops (C.NewDataSet data)).containsNaN m = false ∧
          ∀ n ∈ st.candidates, (C.ops (C.NewDataSet data)).containsNaN n = false →
            Float64.gt ((C.ops (C.NewDataSet data)).CrossScore n)
                ((C.ops (C.NewDataSet data)).CrossScore m) = false ∧
              ¬ (Float64.eq ((C.ops (C.NewDataSet data)).CrossScore n)
                    ((C.ops (C.NewDataSet data)).CrossScore m) = true ∧
                  Float64.gt ((C.ops (C.NewDataSet data)).TrainingScore n)
                    ((C.ops (C.NewDataSet data)).TrainingScore m) = true) := by
  obtain ⟨st, hst, ⟨_, hsome⟩, _⟩ := searchLoop_inv C fuel rng data
  have hT := Train_eq_best C (fuel + 2) rng data st hst
  refine ⟨st, hst, hT, fun m hm => ?_⟩
  rw [hT] at hm
  obtain ⟨h1, h2, _, _, h5⟩ := hsome m (Option.some.inj hm)
  exact ⟨h1, h2, fun n hn hnn => h5 n hn hnn⟩

/-- C4: the search looks at 30 networks; it returns nil exactly when every one
of them contains NaN, and a model it returns does not contain NaN -/
theorem Train_nil_iff_all_diverged [Zero V] (C : Search Data DS Net V Rng) (fuel : Nat)
    (rng : Rng) (data : Data) :
    ∃ st, searchLoop C (fuel + 2) rng data = some st ∧
      st.candidates.length = 30 ∧
      (Train C (fuel + 2) rng data = some none ↔
        ∀ n ∈ st.candidates, (C.ops (C.NewDataSet data)).containsNaN n = true) ∧
      (∀ m, Train C (fuel + 2) rng data = some (some m) →
        m ∈ st.candidates ∧ (C.ops (C.NewDataSet data)).containsNaN m = false) := by
  obtain ⟨st, hst, ⟨hnone, hsome⟩, hlog, _⟩ := searchLoop_inv C fuel rng data
  have hT := Train_eq_best C (fuel + 2) rng data st hst
  refine ⟨st, hst, ?_, ⟨fun h => ?_, fun h => ?_⟩, fun m hm => ?_⟩
  · have hl := congrArg List.length hlog
    rw [forRange_search] at hl
    simpa [SearchState.candidates] using hl
  · rw [hT] at h
    exact hnone (Option.some.inj h)
  · rw [hT]
    cases hb : st.best with
    | none => rfl
    | some b =>
      obtain ⟨h1, h2, _⟩ := hsome b hb
      rw [h b h1] at h2
      cases h2
  · rw [hT] at hm
    obtain ⟨h1, h2, _⟩ := hsome m (Option.some.inj hm)
    exact ⟨h1, h2⟩

/-- C10: the search makes exactly 30 passes, the loop variable going from -20
to 9 in increasing order; every pass builds its Trainer with `NewTrainer` on
the one DataSet `NewDataSet(data)` at step size `2 ^ stepPower` and runs
`Trainer.Train(6400)` on it, 6400 being `DefaultMaxIterations` -/
theorem Train_trials [Zero V] (C : Search Data DS Net V Rng) (fuel : Nat) (rng : Rng)
    (data : Data) :
    ∃ st, searchLoop C (fuel + 2) rng data = some st ∧
      st.trials.length = 30 ∧
      st.trials.map (fun tr => tr.stepPower) =
        [-20, -19, -18, -17, -16, -15, -14, -13, -12, -11, -10, -9, -8, -7, -6, -5, -4, -3, -2,
          -1, 0, 1, 2, 3, 4, 5, 6, 7, 8, 9] ∧
      (∀ tr ∈ st.trials,
        tr.ds = C.NewDataSet data ∧ tr.stepSize = (2 : ℚ) ^ tr.stepPower ∧
          tr.built = (C.NewTrainer (C.NewDataSet data) ((2 : ℚ) ^ tr.stepPower) tr.rng).1 ∧
          tr.maxIters = 6400 ∧
          Trainer.Train (C.ops (C.NewDataSet data)) (fuel + 2) 6400
            { n := tr.built, stepSize := (2 : ℚ) ^ tr.stepPower, calls := Calls.zero }
              = some tr.trainer) ∧
      DefaultMaxIterations = 6400 := by
  obtain ⟨st, hst, _, hlog, htr⟩ := searchLoop_inv C fuel rng data
  rw [forRange_search] at hlog
  refine ⟨st, hst, ?_, hlog, fun tr hmem => ?_, rfl⟩
  · have hl := congrArg List.length hlog
    simpa using hl
  · obtain ⟨h1, h2, h3, h4, h5⟩ := htr tr hmem
    rw [h3] at h5
    rw [h2] at h4 h5
    exact ⟨h1, h2, h4, h3, h5⟩

/-! ## C16, C17, C19 : the doubling schedule when `int` operations wrap -/

theorem wrapInt_le_intMax (x : Int) : wrapInt x ≤ 9223372036854775807 := by
  unfold wrapInt
  omega

theorem nextAmount_intMax (iters : Int) : nextAmount 9223372036854775807 iters = iters := by
  unfold nextAmount
  rw [if_neg (by have := wrapInt_le_intMax (iters + iters); omega)]

theorem wrapInt_double_ne_intMax (iters : Int) :
    wrapInt (iters + iters) ≠ 9223372036854775807 := by
  unfold wrapInt
  omega

theorem nanScore_next (s : LoopState Nat Nat) :
    ∃ s1, loopBody nanScoreOps 9223372036854775807 s = Outcome.next s1 := by
  cases h : loopBody nanScoreOps 9223372036854775807 s with
  | diverged t =>
    have h1 := (loopBody_diverged _ _ s t h).1
    simp [nanScoreOps] at h1
  | reverted t =>
    have h1 := (loopBody_reverted _ _ s t h).2.1
    simp [nanScoreOps, revertTest, Float64.eq, Float64.lt] at h1
  | reachedMax t =>
    have h1 := (loopBody_reachedMax _ _ s t h).2.2.1
    rw [nextAmount_intMax] at h1
    exact absurd h1 (wrapInt_double_ne_intMax s.iters)
  | next s1 => exact ⟨s1, rfl⟩

theorem nanScore_loop_never_returns (fuel : Nat) :
    ∀ s : LoopState Nat Nat, trainLoop nanScoreOps 9223372036854775807 fuel s = none := by
  induction fuel with
  | zero => intro s; rfl
  | succ fuel ih =>
    intro s
    obtain ⟨s1, h⟩ := nanScore_next s
    rw [trainLoop_succ_next nanScoreOps _ fuel s s1 h]
    exact ih s1

/-- C17 (failing input): with `maxIters` the greatest `int`, on a Trainer whose
network never contains NaN and whose scores are NaN, every pass of the doubling
loop is accepted and leaves `iters` different from `maxIters` (it is
`2000 * 2^k` wrapped to 64 bits, an even number, and stays 0 from the 60th pass
on): whatever the fuel, `Trainer.Train` does not return -/
theorem Train_never_returns_at_intMax (fuel : Nat) :
    Trainer.Train nanScoreOps fuel 9223372036854775807 freshTrainer = none := by
  rw [Train_of_gt nanScoreOps fuel 9223372036854775807 freshTrainer (by norm_num)]
  generalize Nat.iterate (nanScoreOps.runAllSamples freshTrainer.stepSize) 2000
    freshTrainer.n = m
  unfold trainRest
  rw [if_neg (by norm_num), if_neg (by simp [nanScoreOps])]
  exact nanScore_loop_never_returns fuel _

/-- C16 (failing input): in `Trainer.Train` with `maxIters` the greatest `int`
and `upOps`, the loop reaches the pass with `e = 2000 * 2^52` epochs run so far.
There `nextAmount+iters` wraps, the block has length `e` and not
`min(e, maxIters - e) = 216172782113783807`, and after it 2000 * 2^53 epochs
have been run, which is not `min(2000 * 2^53, maxIters)` -/
theorem block_length_not_min_at_intMax :
    Trainer.Train upOps 54 9223372036854775807 freshTrainer
        = trainLoop upOps 9223372036854775807 2 (upState 9007199254740992000 53)
      ∧ (upState 9007199254740992000 53).iters = 9007199254740992000
      ∧ nextAmount 9223372036854775807 9007199254740992000 = 9007199254740992000
      ∧ min (9007199254740992000 : Int) (9223372036854775807 - 9007199254740992000)
          = 216172782113783807
      ∧ (afterBlock upOps 9223372036854775807
          (upState 9007199254740992000 53)).calls.runAllSamples = 18014398509481984000
      ∧ min (2000 * 2 ^ 53 : Int) 9223372036854775807 = 9223372036854775807 := by
  have h0 : Trainer.Train upOps 54 9223372036854775807 freshTrainer
      = trainLoop upOps 9223372036854775807 (2 + 52) (upState 2000 1) := by
    simp [Trainer.Train, trainRest, firstLoopState, initialIters, InitialIterationCount,
      runEpochs, upOps, freshTrainer, Trainer.tickNaN, Trainer.tickScores, Trainer.tickCopy,
      iterate_add_one, Calls.zero, upState, upCalls]
  have hn : nextAmount 9223372036854775807 9007199254740992000 = 9007199254740992000 := by
    simp [nextAmount, wrapInt]
  refine ⟨?_, rfl, hn, by norm_num, ?_, by norm_num⟩
  · rw [h0, up_run 9223372036854775807 (by unfold intMax; norm_num) 2 52 2000 1 (by norm_num)
      (by norm_num)]
    norm_num
  · rw [afterBlock_n]
    show 9007199254740992000 + (nextAmount 9223372036854775807 9007199254740992000).toNat
      = 18014398509481984000
    rw [hn]
    have h2 : Int.toNat 9007199254740992000 = 9007199254740992000 := by omega
    rw [h2]

/-- C19 (failing input): `Trainer.Train(9007199254740992001)` with `upOps`, whose
networks are the numbers of epochs they have been through, returns the network
of 2000 * 2^53 epochs; no number `k <= maxIters` of epochs from the initial
network gives that network -/
theorem Train_model_past_maxIters :
    Trainer.Train upOps 54 9007199254740992001 freshTrainer
        = some { n := 18014398509481984000, stepSize := 1,
                 calls := { runAllSamples := 18014398509481984000, containsNaN := 55,
                            CrossScore := 55, TrainingScore := 55, Copy := 54, revert := 1 } }
      ∧ ¬ ∃ k : Nat, (k : Int) ≤ 9007199254740992001 ∧
          Nat.iterate (upOps.runAllSamples freshTrainer.stepSize) k freshTrainer.n
            = 18014398509481984000 := by
  refine ⟨?_, ?_⟩
  · have h0 : Trainer.Train upOps 54 9007199254740992001 freshTrainer
        = trainLoop upOps 9007199254740992001 (2 + 52) (upState 2000 1) := by
      simp [Trainer.Train, trainRest, firstLoopState, initialIters, InitialIterationCount,
        runEpochs, upOps, freshTrainer, Trainer.tickNaN, Trainer.tickScores, Trainer.tickCopy,
        iterate_add_one, Calls.zero, upState, upCalls]
    rw [h0, up_run 9007199254740992001 (by unfold intMax; norm_num) 2 52 2000 1 (by norm_num)
      (by norm_num)]
    have h1 : loopBody upOps 9007199254740992001 (upState (2000 * 2 ^ 52) (1 + 52)) =
        Outcome.next
          { t := { n := 18014398509481984000, stepSize := 1,
                   calls := { runAllSamples := 18014398509481984000, containsNaN := 54,
                              CrossScore := 54, TrainingScore := 54, Copy := 54, revert := 0 } }
            iters := -432345564227567616
            crossScore := Float64.val 18014398509481984000
            trainScore := Float64.val 0
            lastNet := 18014398509481984000 } := by
      simp [loopBody, upState, nextAmount, wrapInt, runEpochs, afterBlock, upOps,
        Trainer.tickNaN, Trainer.tickScores, Trainer.tickCopy, revertTest, Float64.eq,
        Float64.lt, upCalls, iterate_add_one]
    rw [trainLoop_succ_next upOps _ 1 _ _ h1]
    simp [trainLoop, loopBody, nextAmount, wrapInt, runEpochs, afterBlock, upOps,
      Trainer.tickNaN, Trainer.tickScores, Trainer.revertTo, revertTest, Float64.eq,
      Float64.lt]
  · rintro ⟨k, hk, h⟩
    simp only [upOps, freshTrainer, iterate_add_one] at h
    omega

/-! ## The doubling schedule while no `int` operation wraps -/

/-- While `maxIters` is at most 2^62 the block of a pass has length
`min(e, maxIters - e)`, `e` being the number of epochs run so far -/
theorem nextAmount_eq_min (maxIters iters : Int) (h0 : 0 < iters) (h1 : iters < maxIters)
    (h2 : maxIters ≤ 4611686018427387904) :
    nextAmount maxIters iters = min iters (maxIters - iters) := by
  rw [nextAmount_of_small maxIters iters h0 h1 h2]
  split <;> omega

theorem checkpoint_of_lt (maxIters : Int) (j : Nat)
    (h : ((2000 * 2 ^ j : Nat) : Int) < maxIters) : checkpoint maxIters j = 2000 * 2 ^ j := by
  unfold checkpoint
  omega

theorem block_checkpoint (maxIters : Int) (j : Nat)
    (h : ((2000 * 2 ^ j : Nat) : Int) < maxIters) (hM : maxIters ≤ 4611686018427387904) :
    2000 * 2 ^ j + (nextAmount maxIters ((2000 * 2 ^ j : Nat) : Int)).toNat
      = checkpoint maxIters (j + 1) := by
  have hp : 0 < 2 ^ j := by positivity
  rw [nextAmount_of_small maxIters _ (by omega) h hM]
  unfold checkpoint
  rw [pow_succ]
  split <;> omega

theorem block_iters (maxIters : Int) (j : Nat)
    (h : ((2000 * 2 ^ j : Nat) : Int) < maxIters) (hM : maxIters ≤ 4611686018427387904) :
    wrapInt (((2000 * 2 ^ j : Nat) : Int) + nextAmount maxIters ((2000 * 2 ^ j : Nat) : Int))
      = ((checkpoint maxIters (j + 1) : Nat) : Int) := by
  have hp : 0 < 2 ^ j := by positivity
  rw [← block_checkpoint maxIters j h hM, nextAmount_of_small maxIters _ (by omega) h hM]
  split <;>
    rw [wrapInt_of_range _ (by unfold intMin; omega) (by unfold intMax; omega)] <;> omega

theorem checkpoint_succ_of_ne (maxIters : Int) (j : Nat)
    (h : ((2000 * 2 ^ j : Nat) : Int) < maxIters)
    (hne : ((checkpoint maxIters (j + 1) : Nat) : Int) ≠ maxIters) :
    checkpoint maxIters (j + 1) = 2000 * 2 ^ (j + 1) ∧
      ((2000 * 2 ^ (j + 1) : Nat) : Int) < maxIters := by
  have hp : 0 < 2 ^ j := by positivity
  unfold checkpoint at hne ⊢
  rw [pow_succ] at hne ⊢
  omega

/-- The doubling loop on the schedule: entered after `2000 * 2^j` epochs with
`lastNet` the network in place and `Copy` returning its source, it returns
within `fuel` passes when `maxIters <= 2000 * 2^(j + fuel)`; the epochs run by
then are those of a checkpoint `min(2000 * 2^i, maxIters)`, `containsNaN` has
been called once per checkpoint, and the network in place is the initial one
after the epochs of a checkpoint -/
theorem trainLoop_schedule (E : Ops Net V) (maxIters : Int)
    (hM : maxIters ≤ 4611686018427387904) (hcopy : ∀ n, E.Copy n = n) (f : Net → Net)
    (n0 : Net) (c0 q0 : Nat) :
    ∀ (fuel j : Nat) (s : LoopState Net V),
      s.iters = ((2000 * 2 ^ j : Nat) : Int) → s.iters < maxIters →
      maxIters ≤ ((2000 * 2 ^ (j + fuel) : Nat) : Int) →
      E.runAllSamples s.t.stepSize = f →
      s.t.n = Nat.iterate f (2000 * 2 ^ j) n0 → s.lastNet = s.t.n →
      s.t.calls.runAllSamples = c0 + 2000 * 2 ^ j → s.t.calls.containsNaN = q0 + j + 1 →
      ∃ t1, trainLoop E maxIters fuel s = some t1 ∧
        (∃ i, i ≤ j + fuel ∧ t1.calls.runAllSamples = c0 + checkpoint maxIters i ∧
          t1.calls.containsNaN = q0 + i + 1) ∧
        (∃ i, i ≤ j + fuel ∧ t1.n = Nat.iterate f (checkpoint maxIters i) n0) := by
  intro fuel
  induction fuel with
  | zero =>
    intro j s hi hlt hle _ _ _ _ _
    rw [hi] at hlt
    simp only [Nat.add_zero] at hle
    omega
  | succ fuel ih =>
    intro j s hi hlt hle hf hn hl hc hq
    rw [hi] at hlt
    have hcp := block_checkpoint maxIters j hlt hM
    have hit := block_iters maxIters j hlt hM
    have hbn : (afterBlock E maxIters s).n
        = Nat.iterate f (checkpoint maxIters (j + 1)) n0 := by
      unfold afterBlock runEpochs
      simp only
      rw [hf, hn, ← Function.iterate_add_apply, hi, Nat.add_comm, hcp]
    have hbc : (afterBlock E maxIters s).calls.runAllSamples
        = c0 + checkpoint maxIters (j + 1) := by
      rw [afterBlock_n, hc, hi, ← hcp]
      omega
    have hbq : (afterBlock E maxIters s).calls.containsNaN = q0 + j + 1 := hq
    cases hb : loopBody E maxIters s with
    | diverged t =>
      obtain ⟨_, rfl⟩ := loopBody_diverged E maxIters s t hb
      refine ⟨(afterBlock E maxIters s).tickNaN, by simp only [trainLoop, hb],
        ⟨j + 1, by omega, hbc, ?_⟩,
        ⟨j + 1, by omega, hbn⟩⟩
      simp only [Trainer.tickNaN, hbq]
      omega
    | reverted t =>
      obtain ⟨_, _, rfl⟩ := loopBody_reverted E maxIters s t hb
      refine ⟨((afterBlock E maxIters s).tickNaN.tickScores).revertTo s.lastNet,
        by simp only [trainLoop, hb], ⟨j + 1, by omega, hbc, ?_⟩, ⟨j, by omega, ?_⟩⟩
      · simp only [Trainer.tickNaN, Trainer.tickScores, Trainer.revertTo, hbq]
        omega
      · simp only [Trainer.revertTo]
        rw [hl, hn, checkpoint_of_lt maxIters j hlt]
    | reachedMax t =>
      obtain ⟨_, _, _, rfl⟩ := loopBody_reachedMax E maxIters s t hb
      refine ⟨(afterBlock E maxIters s).tickNaN.tickScores, by simp only [trainLoop, hb],
        ⟨j + 1, by omega, hbc, ?_⟩,
        ⟨j + 1, by omega, hbn⟩⟩
      simp only [Trainer.tickNaN, Trainer.tickScores, hbq]
      omega
    | next s1 =>
      obtain ⟨_, _, hne, hs1⟩ := loopBody_next E maxIters s s1 hb
      rw [hi, hit] at hne
      obtain ⟨hcs, hlt1⟩ := checkpoint_succ_of_ne maxIters j hlt hne
      rw [trainLoop_succ_next E maxIters fuel s s1 hb]
      have hle1 : maxIters ≤ ((2000 * 2 ^ (j + 1 + fuel) : Nat) : Int) := by
        rw [show j + 1 + fuel = j + (fuel + 1) by omega]
        exact hle
      have e1 : s1.iters = ((2000 * 2 ^ (j + 1) : Nat) : Int) := by
        rw [hs1]
        show wrapInt (s.iters + nextAmount maxIters s.iters) = _
        rw [hi, hit, hcs]
      have e2 : E.runAllSamples s1.t.stepSize = f := by
        rw [hs1]
        exact hf
      have e3 : s1.t.n = Nat.iterate f (2000 * 2 ^ (j + 1)) n0 := by
        rw [hs1]
        show (afterBlock E maxIters s).n = _
        rw [hbn, hcs]
      have e4 : s1.lastNet = s1.t.n := by
        rw [hs1]
        exact hcopy _
      have e5 : s1.t.calls.runAllSamples = c0 + 2000 * 2 ^ (j + 1) := by
        rw [hs1]
        show (afterBlock E maxIters s).calls.runAllSamples = _
        rw [hbc, hcs]
      have e6 : s1.t.calls.containsNaN = q0 + (j + 1) + 1 := by
        rw [hs1]
        show (afterBlock E maxIters s).calls.containsNaN + 1 = _
        rw [hbq]
        omega
      obtain ⟨t1, h1, ⟨i, hi1, h2⟩, ⟨i2, hi2, h3⟩⟩ :=
        ih (j + 1) s1 e1 (by rw [e1]; exact hlt1) hle1 e2 e3 e4 e5 e6
      exact ⟨t1, h1, ⟨i, by omega, h2⟩, ⟨i2, by omega, h3⟩⟩

/-- While `maxIters` is above 2000 and at most 2^62, with `Copy` returning its
source: `Trainer.Train` returns within `fuel` passes of the doubling loop when
`maxIters <= 2000 * 2^fuel`; the epochs it has run are those of a checkpoint
`min(2000 * 2^i, maxIters)` with `i <= fuel`, `containsNaN` has been called
`i + 1` times, and the network it holds is the initial one after the epochs of
a checkpoint -/
theorem Train_schedule_of_small (E : Ops Net V) (fuel : Nat) (maxIters : Int) (t : Trainer Net)
    (h0 : 2000 < maxIters) (hM : maxIters ≤ 4611686018427387904)
    (hfuel : maxIters ≤ ((2000 * 2 ^ fuel : Nat) : Int)) (hcopy : ∀ n, E.Copy n = n) :
    ∃ t1, Trainer.Train E fuel maxIters t = some t1 ∧
      (∃ i, i ≤ fuel ∧ t1.calls.runAllSamples = t.calls.runAllSamples + checkpoint maxIters i ∧
        t1.calls.containsNaN = t.calls.containsNaN + i + 1) ∧
      (∃ i, i ≤ fuel ∧
        t1.n = Nat.iterate (E.runAllSamples t.stepSize) (checkpoint maxIters i) t.n) := by
  have hc0 : checkpoint maxIters 0 = 2000 := by
    unfold checkpoint
    omega
  rw [Train_of_gt E fuel maxIters t h0]
  unfold trainRest
  rw [if_neg (by omega)]
  split
  · refine ⟨_, rfl, ⟨0, by omega, ?_, rfl⟩, ⟨0, by omega, ?_⟩⟩
    · rw [hc0]
      simp only [Trainer.tickNaN]
    · rw [hc0]
      simp only [Trainer.tickNaN]
  · have h := trainLoop_schedule E maxIters hM hcopy (E.runAllSamples t.stepSize) t.n
      t.calls.runAllSamples t.calls.containsNaN fuel 0
      (firstLoopState E 2000
        { n := Nat.iterate (E.runAllSamples t.stepSize) 2000 t.n
          stepSize := t.stepSize
          calls := { runAllSamples := t.calls.runAllSamples + 2000
                     containsNaN := t.calls.containsNaN
                     CrossScore := t.calls.CrossScore
                     TrainingScore := t.calls.TrainingScore
                     Copy := t.calls.Copy
                     revert := t.calls.revert } })
      rfl h0 (by simpa using hfuel)
      (by simp only [firstLoopState, Trainer.tickNaN, Trainer.tickScores, Trainer.tickCopy])
      (by simp only [firstLoopState, Trainer.tickNaN, Trainer.tickScores, Trainer.tickCopy,
        pow_zero, mul_one])
      (by simp only [firstLoopState, Trainer.tickNaN, Trainer.tickScores, Trainer.tickCopy]
          rw [hcopy])
      (by simp only [firstLoopState, Trainer.tickNaN, Trainer.tickScores, Trainer.tickCopy,
        pow_zero, mul_one])
      (by simp only [firstLoopState, Trainer.tickNaN, Trainer.tickScores, Trainer.tickCopy,
        Nat.add_zero])
    simpa only [Nat.zero_add] using h

/-- While `maxIters` is at most 2^62, with `Copy` returning its source,
`Trainer.Train` returns a Trainer holding the initial network after exactly
`min(2000 * 2^i, maxIters)` epochs, for some `i` -/
theorem Train_model_of_small (E : Ops Net V) (fuel : Nat) (maxIters : Int) (t : Trainer Net)
    (hM : maxIters ≤ 4611686018427387904) (hfuel : 52 ≤ fuel) (hcopy : ∀ n, E.Copy n = n) :
    ∃ t1, Trainer.Train E fuel maxIters t = some t1 ∧
      ∃ i, (checkpoint maxIters i : Int) ≤ max maxIters 0 ∧
        t1.n = Nat.iterate (E.runAllSamples t.stepSize) (checkpoint maxIters i) t.n := by
  by_cases h : maxIters ≤ 2000
  · refine ⟨_, Train_of_le E fuel maxIters t h, 0, ?_, ?_⟩
    · unfold checkpoint
      omega
    · have hc : checkpoint maxIters 0 = maxIters.toNat := by
        unfold checkpoint
        omega
      rw [hc]
      rfl
  · have hf : maxIters ≤ ((2000 * 2 ^ fuel : Nat) : Int) := by
      have := two_pow_ge fuel hfuel
      push_cast
      omega
    obtain ⟨t1, h1, _, ⟨i, _, h3⟩⟩ :=
      Train_schedule_of_small E fuel maxIters t (by omega) hM hf hcopy
    refine ⟨t1, h1, i, ?_, h3⟩
    unfold checkpoint
    omega

/-- While `maxIters` is at most 2^62, `Trainer.Train` returns, whatever the
scores and `containsNaN` are -/
theorem Train_returns_of_small (E : Ops Net V) (fuel : Nat) (maxIters : Int) (t : Trainer Net)
    (hM : maxIters ≤ 4611686018427387904) (hfuel : 52 ≤ fuel) :
    ∃ t1, Trainer.Train E fuel maxIters t = some t1 := by
  by_cases h : 0 ≤ maxIters
  · obtain ⟨t1, h1, _⟩ := Train_epochs_le_of_small E fuel maxIters t h hM hfuel
    exact ⟨t1, h1⟩
  · exact ⟨_, Train_of_le E fuel maxIters t (by omega)⟩

/-- The checkpoints of `Trainer.Train(6400)` are at 2000, 4000 and 6400 epochs -/
theorem checkpoint_default :
    checkpoint 6400 0 = 2000 ∧ checkpoint 6400 1 = 4000 ∧ checkpoint 6400 2 = 6400 := by
  decide

/-! ## C18 : ties in the search -/

theorem searchBody_cases (C : Search Data DS Net V Rng) (fuel : Nat) (ds : DS) (p : Int)
    (st : SearchState DS Net V Rng) :
    ∃ t st1, searchBody C (fuel + 2) ds st p = some st1 ∧
      st1.candidates = st.candidates ++ [t] ∧
      ((C.ops ds).containsNaN t = true ∧ st1.best = st.best ∧
          st1.bestCrossScore = st.bestCrossScore ∧ st1.bestTrainScore = st.bestTrainScore ∨
        (C.ops ds).containsNaN t = false ∧
          replaceTest ((C.ops ds).CrossScore t) ((C.ops ds).TrainingScore t)
            st.bestCrossScore st.bestTrainScore st.best.isNone = true ∧
          st1.best = some t ∧ st1.bestCrossScore = (C.ops ds).CrossScore t ∧
          st1.bestTrainScore = (C.ops ds).TrainingScore t ∨
        (C.ops ds).containsNaN t = false ∧
          replaceTest ((C.ops ds).CrossScore t) ((C.ops ds).TrainingScore t)
            st.bestCrossScore st.bestTrainScore st.best.isNone = false ∧
          st1.best = st.best ∧
          st1.bestCrossScore = st.bestCrossScore ∧ st1.bestTrainScore = st.bestTrainScore) := by
  obtain ⟨t, ht⟩ := Train_default_returns (C.ops ds) fuel
    { n := (C.NewTrainer ds ((2 : ℚ) ^ p) st.rng).1, stepSize := (2 : ℚ) ^ p,
      calls := Calls.zero }
  refine ⟨t.n, ?_⟩
  unfold searchBody
  simp only [ht]
  by_cases hn : (C.ops ds).containsNaN t.Network = true
  · rw [if_pos hn]
    exact ⟨_, rfl, by simp [SearchState.candidates, Trainer.Network],
      Or.inl ⟨hn, rfl, rfl, rfl⟩⟩
  · rw [if_neg hn]
    have hn2 : (C.ops ds).containsNaN t.n = false := by
      simpa [Trainer.Network] using hn
    by_cases hr : replaceTest ((C.ops ds).CrossScore t.Network)
        ((C.ops ds).TrainingScore t.Network) st.bestCrossScore st.bestTrainScore
        st.best.isNone = true
    · rw [if_pos hr]
      exact ⟨_, rfl, by simp [SearchState.candidates, Trainer.Network],
        Or.inr (Or.inl ⟨hn2, hr, rfl, rfl, rfl⟩)⟩
    · rw [if_neg hr]
      exact ⟨_, rfl, by simp [SearchState.candidates, Trainer.Network],
        Or.inr (Or.inr ⟨hn2, by simpa using hr, rfl, rfl, rfl⟩)⟩

theorem searchBody_last (C : Search Data DS Net V Rng) (fuel : Nat) (ds : DS) (p : Int)
    (st st1 : SearchState DS Net V Rng) (hs : SearchInv (C.ops ds) st)
    (hl : LastInv (C.ops ds) st) (h1 : searchBody C (fuel + 2) ds st p = some st1) :
    LastInv (C.ops ds) st1 := by
  obtain ⟨t, st2, h2, hc, hcase⟩ := searchBody_cases C fuel ds p st
  rw [h1] at h2
  cases Option.some.inj h2
  unfold LastInv at hl ⊢
  intro b hb
  have hkeep : st1.best = st.best →
      (∀ b0, st.best = some b0 → (C.ops ds).containsNaN t = false →
        replaceTest ((C.ops ds).CrossScore t) ((C.ops ds).TrainingScore t)
          ((C.ops ds).CrossScore b0) ((C.ops ds).TrainingScore b0) false = false) →
      ∃ i : Nat, st1.candidates[i]? = some b ∧
        ∀ (j : Nat) (n : Net), i < j → st1.candidates[j]? = some n → (C.ops ds).containsNaN n = false →
          replaceTest ((C.ops ds).CrossScore n) ((C.ops ds).TrainingScore n)
            ((C.ops ds).CrossScore b) ((C.ops ds).TrainingScore b) false = false := by
    intro he hnew
    rw [he] at hb
    obtain ⟨i, hi, hlater⟩ := hl b hb
    have hilt : i < st.candidates.length := by
      rcases Nat.lt_or_ge i st.candidates.length with h | h
      · exact h
      · rw [List.getElem?_eq_none h] at hi
        cases hi
    refine ⟨i, ?_, fun j n hij hj hnn => ?_⟩
    · rw [hc, List.getElem?_append_left hilt]
      exact hi
    · rw [hc] at hj
      rcases Nat.lt_or_ge j st.candidates.length with h | h
      · rw [List.getElem?_append_left h] at hj
        exact hlater j n hij hj hnn
      · rw [List.getElem?_append_right h] at hj
        rcases Nat.eq_zero_or_pos (j - st.candidates.length) with h0 | h0
        · rw [h0] at hj
          cases Option.some.inj hj
          exact hnew b hb hnn
        · rw [List.getElem?_eq_none (by simp only [List.length_singleton]; omega)] at hj
          cases hj
  rcases hcase with ⟨hn, he, _, _⟩ | ⟨hn, hr, he, _, _⟩ | ⟨hn, hr, he, _, _⟩
  · exact hkeep he (fun b0 _ hnn => by rw [hn] at hnn; cases hnn)
  · rw [he] at hb
    cases Option.some.inj hb
    refine ⟨st.candidates.length, ?_, fun j n hij hj _ => ?_⟩
    · rw [hc, List.getElem?_append_right (Nat.le_refl _)]
      simp
    · rw [hc, List.getElem?_eq_none (by simp; omega)] at hj
      cases hj
  · refine hkeep he (fun b0 hb0 _ => ?_)
    obtain ⟨_, _, h3, h4, _⟩ := hs.2 b0 hb0
    rw [hb0, h3, h4] at hr
    exact hr

theorem searchLoop_last [Zero V] (C : Search Data DS Net V Rng) (fuel : Nat) (rng : Rng)
    (data : Data) :
    ∃ st, searchLoop C (fuel + 2) rng data = some st ∧
      SearchInv (C.ops (C.NewDataSet data)) st ∧ LastInv (C.ops (C.NewDataSet data)) st := by
  have h := foldlM_inv (searchBody C (fuel + 2) (C.NewDataSet data))
    (fun done st => (SearchInv (C.ops (C.NewDataSet data)) st ∧
      LogInv C (fuel + 2) (C.NewDataSet data) done st) ∧
      LastInv (C.ops (C.NewDataSet data)) st)
    (fun done x st hi => by
      obtain ⟨st1, h1, h2⟩ := searchBody_inv C fuel (C.NewDataSet data) done x st hi.1
      exact ⟨st1, h1, h2,
        searchBody_last C fuel (C.NewDataSet data) x st st1 hi.1.1 hi.2 h1⟩)
    (forRange (-20) 10) [] (searchStart rng)
    ⟨⟨⟨fun _ n hn => by simp [SearchState.candidates, searchStart] at hn,
        fun b hb => by simp [searchStart] at hb⟩,
      rfl, fun tr htr => by simp [searchStart] at htr⟩,
      fun b hb => by simp [searchStart] at hb⟩
  obtain ⟨st, h1, ⟨h2, _⟩, h3⟩ := h
  exact ⟨st, by simpa [searchLoop] using h1, h2, h3⟩

/-- C18: the model the search returns is the network of some pass `i`, no
network that does not contain NaN is better than it, and no later pass has a
network without NaN whose two scores are equal to its scores: among the
networks sharing the greatest pair of scores the last one is returned.  And a
pass whose network has the stored cross-validation score and a strictly lower
training score than the stored one leaves `best` and the stored scores as
they are -/
theorem Train_returns_last_of_ties [Zero V] (C : Search Data DS Net V Rng) (fuel : Nat)
    (rng : Rng) (data : Data) :
    (∃ st, searchLoop C (fuel + 2) rng data = some st ∧
      Train C (fuel + 2) rng data = some st.best ∧
      ∀ m, Train C (fuel + 2) rng data = some (some m) →
        ∃ i : Nat, st.candidates[i]? = some m ∧
          (∀ n ∈ st.candidates, (C.ops (C.NewDataSet data)).containsNaN n = false →
            notBetter (C.ops (C.NewDataSet data)) n m) ∧
          ∀ (j : Nat) (n : Net), i < j → st.candidates[j]? = some n →
            (C.ops (C.NewDataSet data)).containsNaN n = false →
            ¬ (Float64.eq ((C.ops (C.NewDataSet data)).CrossScore n)
                  ((C.ops (C.NewDataSet data)).CrossScore m) = true ∧
                Float64.eq ((C.ops (C.NewDataSet data)).TrainingScore n)
                  ((C.ops (C.NewDataSet data)).TrainingScore m) = true))
      ∧ ∀ (ds : DS) (p : Int) (st st1 : SearchState DS Net V Rng) (b n : Net),
          searchBody C (fuel + 2) ds st p = some st1 → st.best = some b →
          st1.candidates = st.candidates ++ [n] →
          Float64.eq ((C.ops ds).CrossScore n) st.bestCrossScore = true →
          Float64.lt ((C.ops ds).TrainingScore n) st.bestTrainScore = true →
          st1.best = some b ∧ st1.bestCrossScore = st.bestCrossScore ∧
            st1.bestTrainScore = st.bestTrainScore := by
  refine ⟨?_, ?_⟩
  · obtain ⟨st, hst, ⟨_, hsome⟩, hlast⟩ := searchLoop_last C fuel rng data
    have hT := Train_eq_best C (fuel + 2) rng data st hst
    refine ⟨st, hst, hT, fun m hm => ?_⟩
    rw [hT] at hm
    obtain ⟨i, hi, hlater⟩ := hlast m (Option.some.inj hm)
    obtain ⟨_, _, _, _, h5⟩ := hsome m (Option.some.inj hm)
    refine ⟨i, hi, h5, fun j n hij hj hnn hc => ?_⟩
    have hr := hlater j n hij hj hnn
    unfold replaceTest at hr
    rw [hc.1, Float64.eq_val _ _ hc.2] at hr
    have hge : Float64.ge ((C.ops (C.NewDataSet data)).TrainingScore m)
        ((C.ops (C.NewDataSet data)).TrainingScore m) = true := by
      have h2 := hc.2
      rw [Float64.eq_val _ _ hc.2] at h2
      generalize (C.ops (C.NewDataSet data)).TrainingScore m = x at h2
      cases x <;> simp_all [Float64.eq, Float64.ge]
    rw [hge] at hr
    cases hr
  · intro ds p st st1 b n h1 hb hc heq hlt
    obtain ⟨t, st2, h2, hc2, hcase⟩ := searchBody_cases C fuel ds p st
    rw [h1] at h2
    cases Option.some.inj h2
    have htn : t = n := by
      rw [hc] at hc2
      simpa using (List.append_cancel_left hc2).symm
    rw [htn] at hcase
    rcases hcase with ⟨_, he, h3, h4⟩ | ⟨_, hr, _, _, _⟩ | ⟨_, _, he, h3, h4⟩
    · exact ⟨he.trans hb, h3, h4⟩
    · exfalso
      rw [hb] at hr
      unfold replaceTest at hr
      generalize (C.ops ds).CrossScore n = c at *
      generalize (C.ops ds).TrainingScore n = tr at *
      generalize st.bestCrossScore = bc at *
      generalize st.bestTrainScore = bt at *
      cases c <;> cases bc <;> cases tr <;> cases bt <;>
        simp_all [Float64.eq, Float64.lt, Float64.ge, Float64.gt]
      exact absurd hlt (not_lt.mpr hr)
    · exact ⟨he.trans hb, h3, h4⟩

/-! ## NewTrainer: the shape and the entries of the weight matrices -/

theorem hiddenCountOf_eq (L : Nat) : hiddenCountOf L = 2 * L := by
  unfold hiddenCountOf HiddenLayerScale
  have h : (2 : ℚ) * (L : ℚ) = ((2 * L : Nat) : ℚ) := by push_cast; ring
  rw [h, Int.floor_natCast, Int.toNat_ofNat]

theorem fillRow_append {F : Type} [One F] [OfNat F 2] [Mul F] [Sub F] (k : Nat) :
    ∀ (done rest : List F) (r : Rand F), k ≤ rest.length →
      fillRow k done.length (done ++ rest) r =
        some (done ++ (List.range k).map (fun m => r.draws (r.pos + m) * 2 - 1) ++ rest.drop k,
          { draws := r.draws, pos := r.pos + k }) := by
  induction k with
  | zero => intro done rest r _; simp [fillRow]
  | succ k ih =>
    intro done rest r hk
    cases rest with
    | nil => simp at hk
    | cons x rest =>
      have hlt : done.length < (done ++ x :: rest).length := by simp
      have hset : (done ++ x :: rest).set done.length (r.Float64 * 2 - 1) =
          (done ++ [r.Float64 * 2 - 1]) ++ rest := by
        rw [List.set_append_right _ _ (le_refl _)]
        simp
      have hlen : (done ++ [r.Float64 * 2 - 1]).length = done.length + 1 := by simp
      rw [fillRow, if_pos hlt, hset, ← hlen, ih _ rest r.next (by simpa using hk)]
      simp only [Rand.next, Rand.Float64, List.range_succ_eq_map, List.map_cons, List.map_map,
        List.drop_succ_cons, List.append_assoc, List.singleton_append, Nat.add_zero,
        Option.some.injEq, Prod.mk.injEq, List.append_cancel_left_eq, List.cons.injEq, true_and,
        List.append_cancel_right_eq]
      refine ⟨?_, by congr 1; omega⟩
      apply List.map_congr_left
      intro m _
      simp only [Function.comp, Nat.succ_eq_add_one]
      congr 3
      omega

theorem fillRow_none {F : Type} [One F] [OfNat F 2] [Mul F] [Sub F] (k : Nat) :
    ∀ (done rest : List F) (r : Rand F), rest.length < k →
      fillRow k done.length (done ++ rest) r = none := by
  induction k with
  | zero => intro done rest r h; omega
  | succ k ih =>
    intro done rest r hk
    cases rest with
    | nil => simp [fillRow]
    | cons x rest =>
      have hlt : done.length < (done ++ x :: rest).length := by simp
      have hset : (done ++ x :: rest).set done.length (r.Float64 * 2 - 1) =
          (done ++ [r.Float64 * 2 - 1]) ++ rest := by
        rw [List.set_append_right _ _ (le_refl _)]
        simp
      have hlen : (done ++ [r.Float64 * 2 - 1]).length = done.length + 1 := by simp
      rw [fillRow, if_pos hlt, hset, ← hlen, ih _ rest r.next (by simpa using hk)]

/-- The row a pass of the outer loop of `NewTrainer` leaves: `count` weights
drawn from position `p` of the random source on, then zeros up to `rowLen` -/
theorem fillRow_fresh {F : Type} [Zero F] [One F] [OfNat F 2] [Mul F] [Sub F]
    (rowLen count : Nat) (r : Rand F) (h : count ≤ rowLen) :
    fillRow count 0 (List.replicate rowLen (0 : F)) r =
      some ((List.range count).map (fun m => r.draws (r.pos + m) * 2 - 1) ++
          List.replicate (rowLen - count) 0,
        { draws := r.draws, pos := r.pos + count }) := by
  have := fillRow_append count ([] : List F) (List.replicate rowLen 0) r (by simpa using h)
  simpa using this

theorem fillRows_append {F : Type} [Zero F] [One F] [OfNat F 2] [Mul F] [Sub F]
    (rowLen count : Nat) (hc : count ≤ rowLen) (k : Nat) :
    ∀ (done rest : List (List F)) (r : Rand F), k ≤ rest.length →
      fillRows rowLen count k done.length (done ++ rest) r =
        some (done ++ (List.range k).map (fun i =>
              (List.range count).map (fun m => r.draws (r.pos + i * count + m) * 2 - 1) ++
                List.replicate (rowLen - count) 0) ++ rest.drop k,
          { draws := r.draws, pos := r.pos + k * count }) := by
  induction k with
  | zero => intro done rest r _; simp [fillRows]
  | succ k ih =>
    intro done rest r hk
    cases rest with
    | nil => simp at hk
    | cons x rest =>
      have hlt : done.length < (done ++ x :: rest).length := by simp
      rw [fillRows, if_pos hlt, fillRow_fresh rowLen count r hc]
      simp only
      have hset : ∀ row : List F, (done ++ x :: rest).set done.length row =
          (done ++ [row]) ++ rest := by
        intro row
        rw [List.set_append_right _ _ (le_refl _)]
        simp
      have hlen : ∀ row : List F, (done ++ [row]).length = done.length + 1 := by simp
      rw [hset, ← hlen, ih _ rest _ (by simpa using hk)]
      simp only [List.range_succ_eq_map, List.map_cons, List.map_map,
        List.drop_succ_cons, List.append_assoc, List.singleton_append, Nat.add_zero,
        Option.some.injEq, Prod.mk.injEq, List.append_cancel_left_eq, List.cons.injEq,
        List.append_cancel_right_eq, Nat.zero_mul]
      refine ⟨⟨trivial, ?_⟩, by congr 1; ring⟩
      apply List.map_congr_left
      intro i _
      simp only [Function.comp, Nat.succ_eq_add_one]
      congr 1
      apply List.map_congr_left
      intro m _
      congr 3
      ring


theorem fillRows_fresh {F : Type} [Zero F] [One F] [OfNat F 2] [Mul F] [Sub F]
    (rowLen count : Nat) (hc : count ≤ rowLen) (k : Nat) (r : Rand F) :
    fillRows rowLen count k 0 (List.replicate k ([] : List F)) r =
      some ((List.range k).map (fun i =>
            (List.range count).map (fun m => r.draws (r.pos + i * count + m) * 2 - 1) ++
              List.replicate (rowLen - count) 0),
        { draws := r.draws, pos := r.pos + k * count }) := by
  have h := fillRows_append rowLen count hc k ([] : List (List F)) (List.replicate k []) r
    (by simp)
  simpa using h

/-- The whole of `NewTrainer` in closed form: it returns for every DataSet; a
row of the output weights has `L` drawn weights and then `L + 1` zeros, a row
of the hidden weights has `T + 1` drawn weights; `L * L + 2 * L * (T + 1)`
values are drawn -/
theorem NewTrainer_eq {F Freqs : Type} [Zero F] [One F] [OfNat F 2] [Mul F] [Sub F]
    (G : GradOps F Freqs) (d : DataSet Freqs) (stepSize : F) (r : Rand F) :
    NewTrainer G d stepSize r =
      some ({ n :=
                { Tokens := d.Tokens
                  Langs := d.Langs
                  HiddenWeights := (List.range (2 * d.TrainingSamples.length)).map (fun i =>
                    (List.range (d.Tokens.length + 1)).map (fun m =>
                      r.draws (r.pos + d.TrainingSamples.length * d.TrainingSamples.length
                        + i * (d.Tokens.length + 1) + m) * 2 - 1))
                  OutputWeights := (List.range d.TrainingSamples.length).map (fun i =>
                    (List.range d.TrainingSamples.length).map (fun m =>
                      r.draws (r.pos + i * d.TrainingSamples.length + m) * 2 - 1) ++
                      List.replicate (d.TrainingSamples.length + 1) 0) }
              d := d
              g := G.newGradientCalc
                { Tokens := d.Tokens
                  Langs := d.Langs
                  HiddenWeights := (List.range (2 * d.TrainingSamples.length)).map (fun i =>
                    (List.range (d.Tokens.length + 1)).map (fun m =>
                      r.draws (r.pos + d.TrainingSamples.length * d.TrainingSamples.length
                        + i * (d.Tokens.length + 1) + m) * 2 - 1))
                  OutputWeights := (List.range d.TrainingSamples.length).map (fun i =>
                    (List.range d.TrainingSamples.length).map (fun m =>
                      r.draws (r.pos + i * d.TrainingSamples.length + m) * 2 - 1) ++
                      List.replicate (d.TrainingSamples.length + 1) 0) }
              stepSize := stepSize
              steps := [] },
            { draws := r.draws
              pos := r.pos + d.TrainingSamples.length * d.TrainingSamples.length
                + 2 * d.TrainingSamples.length * (d.Tokens.length + 1) }) := by
  have e : 2 * d.TrainingSamples.length + 1 - d.TrainingSamples.length
      = d.TrainingSamples.length + 1 := by omega
  unfold NewTrainer
  simp only [hiddenCountOf_eq, List.length_replicate]
  rw [fillRows_fresh _ _ (by omega)]
  simp only
  rw [fillRows_fresh _ _ (le_refl _)]
  simp only [e, Nat.sub_self, List.replicate_zero, List.append_nil]


/-- C13: for a DataSet with `L` training labels and `T` tokens, `hiddenCount`
is `2 * L`, which is `HiddenLayerScale * L` and its rounding; `NewTrainer`
returns a Trainer whose `HiddenWeights` has `hiddenCount` rows of length
`T + 1` each and whose `OutputWeights` has `L` rows of length `hiddenCount + 1`
each -/
theorem NewTrainer_dimensions {F Freqs : Type} [Zero F] [One F] [OfNat F 2] [Mul F] [Sub F]
    (G : GradOps F Freqs) (d : DataSet Freqs) (stepSize : F) (r : Rand F) :
    hiddenCountOf d.TrainingSamples.length = 2 * d.TrainingSamples.length ∧
      ((hiddenCountOf d.TrainingSamples.length : Nat) : ℚ)
        = HiddenLayerScale * (d.TrainingSamples.length : ℚ) ∧
      ((hiddenCountOf d.TrainingSamples.length : Nat) : ℤ)
        = round (HiddenLayerScale * (d.TrainingSamples.length : ℚ)) ∧
      ∃ t r1, NewTrainer G d stepSize r = some (t, r1) ∧
        t.n.HiddenWeights.length = hiddenCountOf d.TrainingSamples.length ∧
        (∀ row ∈ t.n.HiddenWeights, row.length = d.Tokens.length + 1) ∧
        t.n.OutputWeights.length = d.TrainingSamples.length ∧
        (∀ row ∈ t.n.OutputWeights,
          row.length = hiddenCountOf d.TrainingSamples.length + 1) := by
  have h2 : HiddenLayerScale * (d.TrainingSamples.length : ℚ)
      = ((2 * d.TrainingSamples.length : Nat) : ℚ) := by
    unfold HiddenLayerScale
    push_cast
    ring
  refine ⟨hiddenCountOf_eq _, ?_, ?_, _, _, NewTrainer_eq G d stepSize r, ?_, ?_, ?_, ?_⟩
  · rw [hiddenCountOf_eq, h2]
  · rw [hiddenCountOf_eq, h2, round_natCast]
  · simp [hiddenCountOf_eq]
  · intro row hrow
    simp only [List.mem_map, List.mem_range] at hrow
    obtain ⟨i, _, rfl⟩ := hrow
    simp
  · simp
  · intro row hrow
    simp only [List.mem_map, List.mem_range] at hrow
    obtain ⟨i, _, rfl⟩ := hrow
    simp [hiddenCountOf_eq]
    omega

/-- C20: the inner loop over an output row goes through `j < L`, the row has
length `hiddenCount + 1 = 2 * L + 1 > j`, so no index is outside the row: the
output loop returns, and so does `NewTrainer`.  The loop would fail on a row
shorter than `L` -/
theorem NewTrainer_output_loop_in_range {F Freqs : Type}
    [Zero F] [One F] [OfNat F 2] [Mul F] [Sub F]
    (G : GradOps F Freqs) (d : DataSet Freqs) (stepSize : F) (r : Rand F) :
    (∀ j, j < d.TrainingSamples.length →
        j < (List.replicate (hiddenCountOf d.TrainingSamples.length + 1) (0 : F)).length) ∧
      (∀ r0 : Rand F, ∃ row r1,
        fillRow d.TrainingSamples.length 0
          (List.replicate (hiddenCountOf d.TrainingSamples.length + 1) (0 : F)) r0
            = some (row, r1)) ∧
      (∃ w r1, fillRows (hiddenCountOf d.TrainingSamples.length + 1) d.TrainingSamples.length
        d.TrainingSamples.length 0 (List.replicate d.TrainingSamples.length []) r
          = some (w, r1)) ∧
      (∃ t r1, NewTrainer G d stepSize r = some (t, r1)) ∧
      (∀ (row : List F) (r0 : Rand F), row.length < d.TrainingSamples.length →
        fillRow d.TrainingSamples.length 0 row r0 = none) := by
  refine ⟨?_, ?_, ?_, ⟨_, _, NewTrainer_eq G d stepSize r⟩, ?_⟩
  · intro j hj
    rw [List.length_replicate, hiddenCountOf_eq]
    omega
  · intro r0
    exact ⟨_, _, fillRow_fresh _ _ r0 (by rw [hiddenCountOf_eq]; omega)⟩
  · exact ⟨_, _, fillRows_fresh _ _ (by rw [hiddenCountOf_eq]; omega) _ r⟩
  · intro row r0 h
    exact fillRow_none _ [] row r0 h


/-- The entries the output loop of `NewTrainer` does not reach: in every row
`i < L` of the output weights the entries `L ≤ j ≤ 2 * L` are the zero of
`make`, and the number of values drawn is `L * L + 2 * L * (T + 1)`, which is
`L * (L + 1)` less than the number `L * (2 * L + 1) + 2 * L * (T + 1)` of
weights -/
theorem NewTrainer_output_tail_zero {F Freqs : Type}
    [Zero F] [One F] [OfNat F 2] [Mul F] [Sub F]
    (G : GradOps F Freqs) (d : DataSet Freqs) (stepSize : F) (r : Rand F) :
    ∃ t r1, NewTrainer G d stepSize r = some (t, r1) ∧
      (∀ i j, i < d.TrainingSamples.length → d.TrainingSamples.length ≤ j →
        j ≤ 2 * d.TrainingSamples.length → entry t.n.OutputWeights i j = some 0) ∧
      r1.pos = r.pos + d.TrainingSamples.length * d.TrainingSamples.length
        + 2 * d.TrainingSamples.length * (d.Tokens.length + 1) := by
  refine ⟨_, _, NewTrainer_eq G d stepSize r, ?_, rfl⟩
  intro i j hi hj hj2
  have h1 : ((List.range d.TrainingSamples.length).map (fun m =>
      r.draws (r.pos + i * d.TrainingSamples.length + m) * 2 - 1)).length
        ≤ j := by simpa using hj
  simp only [entry, List.getElem?_map, List.getElem?_range hi, Option.map_some']
  rw [List.getElem?_append_right h1]
  simp only [List.length_map, List.length_range]
  rw [List.getElem?_replicate, if_pos (by omega)]

/-- C14: on the DataSet with one training label and one token, with the random
source 1/16, 2/16, ..., `NewTrainer` leaves the entries [0][1] and [0][2] of
the output weights at the zero of `make` and draws 5 values for the 7
weights: the inner loop of lines 65-67 ranges over `n.OutputWeights`, not over
the row `n.OutputWeights[i]` -/
theorem NewTrainer_leaves_output_weights_zero :
    (NewTrainer onesGrad oneLabel 1 sixteenths).map
        (fun p => (p.1.n.OutputWeights, p.1.n.HiddenWeights, p.2.pos))
      = some ([[-7 / 8, 0, 0]], [[-3 / 4, -5 / 8], [-1 / 2, -3 / 8]], 5) := by
  simp [NewTrainer, hiddenCountOf_eq, fillRows, fillRow, oneLabel, sixteenths, Rand.Float64,
    Rand.next, List.replicate]
  norm_num


/-! ## descendSample: one step of gradient descent -/

theorem subRow_nil_right {F : Type} [Mul F] [Sub F] (s : F) (ws : List F) :
    subRow s ws [] = ws := by
  cases ws <;> rfl

theorem subRows_nil_right {F : Type} [Mul F] [Sub F] (s : F) (ws : List (List F)) :
    subRows s ws [] = ws := by
  cases ws <;> rfl

theorem subRows_nil_left {F : Type} [Mul F] [Sub F] (s : F) (ps : List (List F)) :
    subRows s [] ps = [] := by
  cases ps <;> rfl

theorem descendRow_append {F : Type} [Mul F] [Sub F] (s : F) (ps : List F) :
    ∀ (done rest : List F), ps.length ≤ rest.length →
      descendRow s done.length ps (done ++ rest) = some (done ++ subRow s rest ps) := by
  induction ps with
  | nil => intro done rest _; rw [descendRow, subRow_nil_right]
  | cons p ps ih =>
    intro done rest h
    cases rest with
    | nil => simp at h
    | cons x rest =>
      have hget : (done ++ x :: rest)[done.length]? = some x := by
        rw [List.getElem?_append_right (le_refl _)]
        simp
      have hset : (done ++ x :: rest).set done.length (x - p * s) =
          (done ++ [x - p * s]) ++ rest := by
        rw [List.set_append_right _ _ (le_refl _)]
        simp
      have hlen : (done ++ [x - p * s]).length = done.length + 1 := by simp
      rw [descendRow, hget]
      simp only
      rw [hset, ← hlen, ih _ rest (by simpa using h)]
      simp [subRow]

theorem descendRow_none {F : Type} [Mul F] [Sub F] (s : F) (ps : List F) :
    ∀ (done rest : List F), rest.length < ps.length →
      descendRow s done.length ps (done ++ rest) = none := by
  induction ps with
  | nil => intro done rest h; simp at h
  | cons p ps ih =>
    intro done rest h
    cases rest with
    | nil => simp [descendRow]
    | cons x rest =>
      have hget : (done ++ x :: rest)[done.length]? = some x := by
        rw [List.getElem?_append_right (le_refl _)]
        simp
      have hset : (done ++ x :: rest).set done.length (x - p * s) =
          (done ++ [x - p * s]) ++ rest := by
        rw [List.set_append_right _ _ (le_refl _)]
        simp
      have hlen : (done ++ [x - p * s]).length = done.length + 1 := by simp
      rw [descendRow, hget]
      simp only
      rw [hset, ← hlen, ih _ rest (by simpa using h)]

theorem descendRows_append {F : Type} [Mul F] [Sub F] (s : F) (parts : List (List F)) :
    ∀ (done rest : List (List F)) (i : Nat), done.length ≤ i → (rest ≠ [] → i = done.length) →
      Fits parts rest →
      descendRows s i parts (done ++ rest) = some (done ++ subRows s rest parts) := by
  induction parts with
  | nil => intro done rest i _ _ _; rw [descendRows, subRows_nil_right]
  | cons p ps ih =>
    intro done rest i hi hi2 hfit
    cases rest with
    | nil =>
      obtain ⟨hp, hfit⟩ := hfit
      subst hp
      rw [descendRows, ih done [] (i + 1) (by omega) (by intro h; exact absurd rfl h) hfit,
        subRows_nil_left, subRows_nil_left]
    | cons x rest =>
      obtain ⟨hp, hfit⟩ := hfit
      have hi3 : i = done.length := hi2 (by simp)
      subst hi3
      have hlen : ∀ row : List F, (done ++ [row]).length = done.length + 1 := by simp
      cases p with
      | nil =>
        have e : done ++ x :: rest = (done ++ [x]) ++ rest := by simp
        rw [descendRows, e, ih (done ++ [x]) rest (done.length + 1) (by simp)
          (by intro _; simp) hfit]
        simp [subRows, subRow_nil_right]
      | cons q qs =>
        have hget : (done ++ x :: rest)[done.length]? = some x := by
          rw [List.getElem?_append_right (le_refl _)]
          simp
        have hrow := descendRow_append s (q :: qs) [] x hp
        simp only [List.length_nil, List.nil_append] at hrow
        have hset : ∀ row : List F, (done ++ x :: rest).set done.length row =
            (done ++ [row]) ++ rest := by
          intro row
          rw [List.set_append_right _ _ (le_refl _)]
          simp
        rw [descendRows, hget]
        simp only
        rw [hrow]
        simp only
        rw [hset, ih (done ++ [subRow s x (q :: qs)]) rest (done.length + 1) (by simp)
          (by intro _; simp) hfit]
        simp [subRows]

theorem descendRows_none {F : Type} [Mul F] [Sub F] (s : F) (parts : List (List F)) :
    ∀ (done rest : List (List F)) (i : Nat), done.length ≤ i → (rest ≠ [] → i = done.length) →
      ¬ Fits parts rest → descendRows s i parts (done ++ rest) = none := by
  induction parts with
  | nil => intro done rest i _ _ h; exact absurd trivial h
  | cons p ps ih =>
    intro done rest i hi hi2 hfit
    cases rest with
    | nil =>
      cases p with
      | nil =>
        rw [descendRows]
        exact ih done [] (i + 1) (by omega) (by intro h; exact absurd rfl h)
          (fun h => hfit ⟨rfl, h⟩)
      | cons q qs =>
        have hget : (done ++ ([] : List (List F)))[i]? = none := by
          rw [List.getElem?_eq_none]
          simpa using hi
        rw [descendRows, hget]
    | cons x rest =>
      have hi3 : i = done.length := hi2 (by simp)
      subst hi3
      cases p with
      | nil =>
        have e : done ++ x :: rest = (done ++ [x]) ++ rest := by simp
        rw [descendRows, e]
        exact ih (done ++ [x]) rest (done.length + 1) (by simp) (by intro _; simp)
          (fun h => hfit ⟨Nat.zero_le _, h⟩)
      | cons q qs =>
        have hget : (done ++ x :: rest)[done.length]? = some x := by
          rw [List.getElem?_append_right (le_refl _)]
          simp
        rw [descendRows, hget]
        simp only
        by_cases hp : (q :: qs).length ≤ x.length
        · have hrow := descendRow_append s (q :: qs) [] x hp
          simp only [List.length_nil, List.nil_append] at hrow
          have hset : ∀ row : List F, (done ++ x :: rest).set done.length row =
              (done ++ [row]) ++ rest := by
            intro row
            rw [List.set_append_right _ _ (le_refl _)]
            simp
          rw [hrow]
          simp only
          rw [hset]
          exact ih (done ++ [subRow s x (q :: qs)]) rest (done.length + 1) (by simp)
            (by intro _; simp) (fun h => hfit ⟨hp, h⟩)
        · have hrow := descendRow_none s (q :: qs) [] x (by omega)
          simp only [List.length_nil, List.nil_append] at hrow
          rw [hrow]

theorem descendRows_of_fits {F : Type} [Mul F] [Sub F] (s : F) (parts w : List (List F))
    (h : Fits parts w) : descendRows s 0 parts w = some (subRows s w parts) := by
  have := descendRows_append s parts [] w 0 (by simp) (by intro _; rfl) h
  simpa using this

theorem descendRows_of_not_fits {F : Type} [Mul F] [Sub F] (s : F) (parts w : List (List F))
    (h : ¬ Fits parts w) : descendRows s 0 parts w = none := by
  have := descendRows_none s parts [] w 0 (by simp) (by intro _; rfl) h
  simpa using this

theorem getElem?_subRow {F : Type} [Mul F] [Sub F] (s : F) :
    ∀ (w p : List F) (j : Nat),
      (subRow s w p)[j]? =
        match w[j]?, p[j]? with
        | none, _ => none
        | some x, none => some x
        | some x, some q => some (x - q * s) := by
  intro w
  induction w with
  | nil => intro p j; cases p <;> simp [subRow]
  | cons x w ih =>
    intro p j
    cases p with
    | nil =>
      rw [subRow_nil_right]
      cases h : (x :: w)[j]? <;> simp
    | cons q p =>
      cases j with
      | zero => simp [subRow]
      | succ j => simpa [subRow] using ih p j

theorem entry_subRows {F : Type} [Mul F] [Sub F] (s : F) :
    ∀ (w p : List (List F)) (i j : Nat),
      entry (subRows s w p) i j =
        match entry w i j, entry p i j with
        | none, _ => none
        | some x, none => some x
        | some x, some q => some (x - q * s) := by
  intro w
  induction w with
  | nil => intro p i j; cases p <;> simp [subRows, entry]
  | cons x w ih =>
    intro p i j
    cases p with
    | nil =>
      rw [subRows_nil_right]
      cases h : entry (x :: w) i j <;> simp [entry]
    | cons q p =>
      cases i with
      | zero => simpa [subRows, entry] using getElem?_subRow s x q j
      | succ i => simpa [subRows, entry] using ih p i j

theorem length_subRow {F : Type} [Mul F] [Sub F] (s : F) :
    ∀ (w p : List F), (subRow s w p).length = w.length := by
  intro w
  induction w with
  | nil => intro p; cases p <;> rfl
  | cons x w ih =>
    intro p
    cases p with
    | nil => rfl
    | cons q p => simp [subRow, ih p]

theorem shape_subRows {F : Type} [Mul F] [Sub F] (s : F) :
    ∀ (w p : List (List F)), shape (subRows s w p) = shape w := by
  intro w
  induction w with
  | nil => intro p; cases p <;> rfl
  | cons x w ih =>
    intro p
    cases p with
    | nil => rfl
    | cons q p =>
      have := ih p
      simp only [shape] at this
      simp [subRows, shape, length_subRow, this]

theorem Fits_of_shape_eq {F : Type} :
    ∀ (p w : List (List F)), shape p = shape w → Fits p w := by
  intro p
  induction p with
  | nil => intro w _; trivial
  | cons q p ih =>
    intro w h
    cases w with
    | nil => simp [shape] at h
    | cons x w =>
      simp only [shape, List.map_cons, List.cons.injEq] at h
      exact ⟨le_of_eq h.1, ih w h.2⟩

theorem entry_of_fits {F : Type} :
    ∀ (p w : List (List F)), Fits p w → ∀ i j q, entry p i j = some q →
      ∃ x, entry w i j = some x := by
  intro p
  induction p with
  | nil => intro w _ i j q h; simp [entry] at h
  | cons r p ih =>
    intro w hfit i j q h
    cases w with
    | nil =>
      obtain ⟨hr, hfit⟩ := hfit
      subst hr
      cases i with
      | zero => simp [entry] at h
      | succ i =>
        have h2 : entry p i j = some q := by simpa [entry] using h
        obtain ⟨x, hx⟩ := ih [] hfit i j q h2
        simp [entry] at hx
    | cons x w =>
      obtain ⟨hr, hfit⟩ := hfit
      cases i with
      | zero =>
        have h2 : r[j]? = some q := by simpa [entry] using h
        have hj : j < r.length := by
          by_contra hc
          rw [List.getElem?_eq_none (by omega)] at h2
          cases h2
        have hj2 : j < x.length := by omega
        exact ⟨x[j], by simp [entry, List.getElem?_eq_getElem hj2]⟩
      | succ i =>
        have h2 : entry p i j = some q := by simpa [entry] using h
        obtain ⟨y, hy⟩ := ih w hfit i j q h2
        exact ⟨y, by simpa [entry] using hy⟩

theorem descendSample_of_fits {F Freqs : Type} [Mul F] [Sub F] (G : GradOps F Freqs)
    (t : FullTrainer F Freqs) (f : Freqs) (langIdx : Nat)
    (hH : Fits (G.Normalize (G.Compute t.n t.g f langIdx)).HiddenPartials t.n.HiddenWeights)
    (hO : Fits (G.Normalize (G.Compute t.n t.g f langIdx)).OutputPartials t.n.OutputWeights) :
    descendSample G t f langIdx =
      some { n := { Tokens := t.n.Tokens
                    Langs := t.n.Langs
                    HiddenWeights := subRows t.stepSize t.n.HiddenWeights
                      (G.Normalize (G.Compute t.n t.g f langIdx)).HiddenPartials
                    OutputWeights := subRows t.stepSize t.n.OutputWeights
                      (G.Normalize (G.Compute t.n t.g f langIdx)).OutputPartials }
             d := t.d
             g := G.Normalize (G.Compute t.n t.g f langIdx)
             stepSize := t.stepSize
             steps := t.steps ++ [(f, langIdx)] } := by
  unfold descendSample
  simp only [descendRows_of_fits _ _ _ hH, descendRows_of_fits _ _ _ hO]


/-- C12: when the partials the calculator holds after `Compute(f, langIdx)` and
then `Normalize()` fit the weight matrices, `descendSample` returns; the
calculator is then in that state, every hidden and every output weight that
has a partial at its indices is its previous value minus that partial times
the step size, a weight without a partial is unchanged and every partial has a
weight; `Tokens`, `Langs`, the step size and the DataSet are unchanged -/
theorem descendSample_update {F Freqs : Type} [Mul F] [Sub F] (G : GradOps F Freqs)
    (t : FullTrainer F Freqs) (f : Freqs) (langIdx : Nat)
    (hH : Fits (G.Normalize (G.Compute t.n t.g f langIdx)).HiddenPartials t.n.HiddenWeights)
    (hO : Fits (G.Normalize (G.Compute t.n t.g f langIdx)).OutputPartials t.n.OutputWeights) :
    ∃ t1, descendSample G t f langIdx = some t1 ∧
      t1.g = G.Normalize (G.Compute t.n t.g f langIdx) ∧
      (∀ i j q, entry t1.g.HiddenPartials i j = some q →
        ∃ x, entry t.n.HiddenWeights i j = some x ∧
          entry t1.n.HiddenWeights i j = some (x - q * t.stepSize)) ∧
      (∀ i j, entry t1.g.HiddenPartials i j = none →
        entry t1.n.HiddenWeights i j = entry t.n.HiddenWeights i j) ∧
      (∀ i j q, entry t1.g.OutputPartials i j = some q →
        ∃ x, entry t.n.OutputWeights i j = some x ∧
          entry t1.n.OutputWeights i j = some (x - q * t.stepSize)) ∧
      (∀ i j, entry t1.g.OutputPartials i j = none →
        entry t1.n.OutputWeights i j = entry t.n.OutputWeights i j) ∧
      shape t1.n.HiddenWeights = shape t.n.HiddenWeights ∧
      shape t1.n.OutputWeights = shape t.n.OutputWeights ∧
      t1.n.Tokens = t.n.Tokens ∧ t1.n.Langs = t.n.Langs ∧
      t1.stepSize = t.stepSize ∧ t1.d = t.d := by
  have hsome : ∀ (w p : List (List F)), Fits p w → ∀ i j q, entry p i j = some q →
      ∃ x, entry w i j = some x ∧ entry (subRows t.stepSize w p) i j
        = some (x - q * t.stepSize) := by
    intro w p hfit i j q hq
    obtain ⟨x, hx⟩ := entry_of_fits p w hfit i j q hq
    exact ⟨x, hx, by rw [entry_subRows, hx, hq]⟩
  have hnone : ∀ (w p : List (List F)) i j, entry p i j = none →
      entry (subRows t.stepSize w p) i j = entry w i j := by
    intro w p i j hq
    rw [entry_subRows, hq]
    cases entry w i j <;> rfl
  exact ⟨_, descendSample_of_fits G t f langIdx hH hO, rfl, hsome _ _ hH, hnone _ _,
    hsome _ _ hO, hnone _ _, shape_subRows _ _ _, shape_subRows _ _ _, rfl, rfl, rfl, rfl⟩

/-- Witness of C12: one step on `smallTrainer` with partials all `1` and step
size 1/2 -/
theorem descendSample_update_witness :
    Fits (onesGrad.Normalize (onesGrad.Compute smallTrainer.n smallTrainer.g 9 0)).HiddenPartials
        smallTrainer.n.HiddenWeights ∧
      Fits (onesGrad.Normalize (onesGrad.Compute smallTrainer.n smallTrainer.g 9 0)).OutputPartials
        smallTrainer.n.OutputWeights ∧
      ∃ t1, descendSample onesGrad smallTrainer 9 0 = some t1 ∧
        t1.g = onesGrad.Normalize (onesGrad.Compute smallTrainer.n smallTrainer.g 9 0) ∧
        (∀ i j q, entry t1.g.HiddenPartials i j = some q →
          ∃ x, entry smallTrainer.n.HiddenWeights i j = some x ∧
            entry t1.n.HiddenWeights i j = some (x - q * smallTrainer.stepSize)) ∧
        (∀ i j, entry t1.g.HiddenPartials i j = none →
          entry t1.n.HiddenWeights i j = entry smallTrainer.n.HiddenWeights i j) ∧
        (∀ i j q, entry t1.g.OutputPartials i j = some q →
          ∃ x, entry smallTrainer.n.OutputWeights i j = some x ∧
            entry t1.n.OutputWeights i j = some (x - q * smallTrainer.stepSize)) ∧
        (∀ i j, entry t1.g.OutputPartials i j = none →
          entry t1.n.OutputWeights i j = entry smallTrainer.n.OutputWeights i j) ∧
        shape t1.n.HiddenWeights = shape smallTrainer.n.HiddenWeights ∧
        shape t1.n.OutputWeights = shape smallTrainer.n.OutputWeights ∧
        t1.n.Tokens = smallTrainer.n.Tokens ∧ t1.n.Langs = smallTrainer.n.Langs ∧
        t1.stepSize = smallTrainer.stepSize ∧ t1.d = smallTrainer.d :=
  ⟨by simp [Fits, onesGrad, smallTrainer], by simp [Fits, onesGrad, smallTrainer],
    descendSample_update onesGrad smallTrainer 9 0 (by simp [Fits, onesGrad, smallTrainer])
      (by simp [Fits, onesGrad, smallTrainer])⟩

/-- The step of the witness of C12, evaluated: every weight is lowered by
1 * 1/2 -/
theorem descendSample_small :
    (descendSample onesGrad smallTrainer 9 0).map
        (fun t => (t.n.HiddenWeights, t.n.OutputWeights, t.steps))
      = some ([[1 / 2, 3 / 2]], [[5 / 2, 7 / 2], [9 / 2, 11 / 2]], [(9, 0)]) := by
  simp [descendSample, descendRows, descendRow, onesGrad, smallTrainer]
  norm_num


/-! ## runAllSamples: the steps of one epoch -/

theorem descendSample_bound {F Freqs : Type} [Mul F] [Sub F] (G : GradOps F Freqs)
    (hG : KeepsShape G) (t : FullTrainer F Freqs) (hB : Bound t) (f : Freqs) (i : Nat) :
    ∃ t1, descendSample G t f i = some t1 ∧ Bound t1 ∧ t1.d = t.d ∧
      t1.steps = t.steps ++ [(f, i)] := by
  obtain ⟨hH, hO⟩ := hG t.n t.g f i
  have hH2 := hH.trans hB.1
  have hO2 := hO.trans hB.2
  refine ⟨_, descendSample_of_fits G t f i (Fits_of_shape_eq _ _ hH2)
    (Fits_of_shape_eq _ _ hO2), ⟨?_, ?_⟩, rfl, rfl⟩
  · exact hH2.trans (shape_subRows _ _ _).symm
  · exact hO2.trans (shape_subRows _ _ _).symm

theorem descendAll_steps {F Freqs : Type} [Mul F] [Sub F] (G : GradOps F Freqs)
    (hG : KeepsShape G) (i : Nat) (samples : List Freqs) :
    ∀ t : FullTrainer F Freqs, Bound t →
      ∃ t1, descendAll G i samples t = some t1 ∧ Bound t1 ∧ t1.d = t.d ∧
        t1.steps = t.steps ++ samples.map (fun s => (s, i)) := by
  induction samples with
  | nil => intro t hB; exact ⟨t, rfl, hB, rfl, by simp⟩
  | cons s samples ih =>
    intro t hB
    obtain ⟨t1, h1, hB1, hd1, hs1⟩ := descendSample_bound G hG t hB s i
    obtain ⟨t2, h2, hB2, hd2, hs2⟩ := ih t1 hB1
    refine ⟨t2, ?_, hB2, hd2.trans hd1, ?_⟩
    · rw [descendAll, h1]
      exact h2
    · rw [hs2, hs1]
      simp

theorem runLangs_steps {F Freqs : Type} [Mul F] [Sub F] (G : GradOps F Freqs)
    (hG : KeepsShape G) (langs : List String) :
    ∀ (i : Nat) (t : FullTrainer F Freqs), Bound t →
      ∃ t1, runLangs G i langs t = some t1 ∧ Bound t1 ∧ t1.d = t.d ∧
        t1.steps = t.steps ++ epochSteps t.d i langs := by
  induction langs with
  | nil => intro i t hB; exact ⟨t, rfl, hB, rfl, by simp [epochSteps]⟩
  | cons lang langs ih =>
    intro i t hB
    obtain ⟨t1, h1, hB1, hd1, hs1⟩ := descendAll_steps G hG i (samplesOf t.d lang) t hB
    obtain ⟨t2, h2, hB2, hd2, hs2⟩ := ih (i + 1) t1 hB1
    refine ⟨t2, ?_, hB2, hd2.trans hd1, ?_⟩
    · rw [runLangs, h1]
      exact h2
    · rw [hs2, hs1, hd1]
      simp [epochSteps]

theorem epochSteps_eq_enumFrom {Freqs : Type} (d : DataSet Freqs) (langs : List String) :
    ∀ i : Nat, epochSteps d i langs =
      (langs.enumFrom i).flatMap (fun p => (samplesOf d p.2).map (fun s => (s, p.1))) := by
  induction langs with
  | nil => intro i; rfl
  | cons lang langs ih =>
    intro i
    rw [epochSteps, ih (i + 1), List.enumFrom_cons, List.flatMap_cons]

theorem map_fst_epochSteps {Freqs : Type} (d : DataSet Freqs) (langs : List String) :
    ∀ i : Nat, (epochSteps d i langs).map Prod.fst = langs.flatMap (samplesOf d) := by
  induction langs with
  | nil => intro i; rfl
  | cons lang langs ih =>
    intro i
    rw [epochSteps, List.map_append, ih (i + 1), List.flatMap_cons, List.map_map]
    congr 1
    exact List.map_id _

theorem lookup_of_mem {β : Type} :
    ∀ (l : List (String × β)), (l.map Prod.fst).Nodup → ∀ k v, (k, v) ∈ l →
      l.lookup k = some v := by
  intro l
  induction l with
  | nil => intro _ k v h; cases h
  | cons e l ih =>
    intro hnd k v h
    obtain ⟨k0, v0⟩ := e
    rw [List.map_cons, List.nodup_cons] at hnd
    rw [List.mem_cons] at h
    rcases h with h | h
    · cases h
      simp [List.lookup]
    · have hne : k ≠ k0 := by
        intro hk
        subst hk
        exact hnd.1 (List.mem_map.mpr ⟨(k, v), h, rfl⟩)
      have hb : (k == k0) = false := by simpa using hne
      rw [List.lookup_cons, hb]
      exact ih hnd.2 k v h

theorem samplesOf_of_mem {Freqs : Type} (d : DataSet Freqs)
    (hnd : (d.TrainingSamples.map Prod.fst).Nodup) (lang : String) (ss : List Freqs)
    (h : (lang, ss) ∈ d.TrainingSamples) : samplesOf d lang = ss := by
  unfold samplesOf
  rw [lookup_of_mem _ hnd lang ss h]
  rfl

theorem flatMap_samplesOf_perm {Freqs : Type} (d : DataSet Freqs)
    (hnd : (d.TrainingSamples.map Prod.fst).Nodup) (langs : List String)
    (hperm : langs.Perm (d.TrainingSamples.map Prod.fst)) :
    (langs.flatMap (samplesOf d)).Perm (d.TrainingSamples.flatMap Prod.snd) := by
  have h1 := List.Perm.flatMap_right (samplesOf d) hperm
  have h2 : (d.TrainingSamples.map Prod.fst).flatMap (samplesOf d)
      = d.TrainingSamples.flatMap Prod.snd := by
    rw [List.flatMap_map]
    apply List.flatMap_congr
    intro e he
    exact samplesOf_of_mem d hnd e.1 e.2 he
  rw [h2] at h1
  exact h1

/-- C11: for a Trainer bound to a calculator that keeps its shape, on a
DataSet whose map has pairwise distinct keys, with the label order of the model
listing each key once: `runAllSamples` returns, and the steps of
`descendSample` it has made are, for the labels in model order with their
index `i`, the training samples of the label in stored order, each paired with
`i`; the samples of these steps are all the training samples, each once -/
theorem runAllSamples_steps {F Freqs : Type} [Mul F] [Sub F] (G : GradOps F Freqs)
    (t : FullTrainer F Freqs) (hG : KeepsShape G) (hB : Bound t)
    (hnd : (t.d.TrainingSamples.map Prod.fst).Nodup)
    (hperm : t.n.Langs.Perm (t.d.TrainingSamples.map Prod.fst)) :
    ∃ t1, runAllSamples G t = some t1 ∧
      t1.steps = t.steps ++
        t.n.Langs.enum.flatMap (fun p => (samplesOf t.d p.2).map (fun s => (s, p.1))) ∧
      (∀ lang ss, (lang, ss) ∈ t.d.TrainingSamples → samplesOf t.d lang = ss) ∧
      ((t.n.Langs.enum.flatMap
          (fun p => (samplesOf t.d p.2).map (fun s => (s, p.1)))).map Prod.fst).Perm
        (t.d.TrainingSamples.flatMap Prod.snd) ∧
      (t.n.Langs.enum.flatMap (fun p => (samplesOf t.d p.2).map (fun s => (s, p.1)))).length
        = (t.d.TrainingSamples.flatMap Prod.snd).length := by
  obtain ⟨t1, h1, _, _, hs⟩ := runLangs_steps G hG t.n.Langs 0 t hB
  have he := epochSteps_eq_enumFrom t.d t.n.Langs 0
  have hp : ((t.n.Langs.enum.flatMap
      (fun p => (samplesOf t.d p.2).map (fun s => (s, p.1)))).map Prod.fst).Perm
        (t.d.TrainingSamples.flatMap Prod.snd) := by
    have := flatMap_samplesOf_perm t.d hnd t.n.Langs hperm
    rw [← map_fst_epochSteps t.d t.n.Langs 0, he] at this
    exact this
  refine ⟨t1, h1, ?_, samplesOf_of_mem t.d hnd, hp, ?_⟩
  · rw [hs, he]
    rfl
  · rw [← hp.length_eq, List.length_map]

/-- Witness of C11: `smallTrainer`, whose label order is "fr", "en" on a map
with the keys "en", "fr" -/
theorem runAllSamples_steps_witness :
    KeepsShape onesGrad ∧ Bound smallTrainer ∧
      (smallTrainer.d.TrainingSamples.map Prod.fst).Nodup ∧
      smallTrainer.n.Langs.Perm (smallTrainer.d.TrainingSamples.map Prod.fst) ∧
      ∃ t1, runAllSamples onesGrad smallTrainer = some t1 ∧
        t1.steps = smallTrainer.steps ++
          smallTrainer.n.Langs.enum.flatMap
            (fun p => (samplesOf smallTrainer.d p.2).map (fun s => (s, p.1))) ∧
        (∀ lang ss, (lang, ss) ∈ smallTrainer.d.TrainingSamples →
          samplesOf smallTrainer.d lang = ss) ∧
        ((smallTrainer.n.Langs.enum.flatMap
            (fun p => (samplesOf smallTrainer.d p.2).map (fun s => (s, p.1)))).map Prod.fst).Perm
          (smallTrainer.d.TrainingSamples.flatMap Prod.snd) ∧
        (smallTrainer.n.Langs.enum.flatMap
            (fun p => (samplesOf smallTrainer.d p.2).map (fun s => (s, p.1)))).length
          = (smallTrainer.d.TrainingSamples.flatMap Prod.snd).length :=
  have hG : KeepsShape onesGrad := by
    intro n g f i
    simp [onesGrad, shape, Function.comp]
  have hB : Bound smallTrainer := by
    simp [Bound, shape, smallTrainer]
  have hnd : (smallTrainer.d.TrainingSamples.map Prod.fst).Nodup := by
    simp [smallTrainer, twoLabels]
  have hperm : smallTrainer.n.Langs.Perm (smallTrainer.d.TrainingSamples.map Prod.fst) := by
    simp only [smallTrainer, twoLabels, List.map_cons, List.map_nil]
    exact List.Perm.swap "en" "fr" []
  ⟨hG, hB, hnd, hperm, runAllSamples_steps onesGrad smallTrainer hG hB hnd hperm⟩

/-- The epoch of the witness of C11, evaluated: the sample of "fr" with index
0, then the two samples of "en" with index 1; every weight has been lowered
three times by 1/2 -/
theorem runAllSamples_small :
    (runAllSamples onesGrad smallTrainer).map
        (fun t => (t.steps, t.n.HiddenWeights, t.n.OutputWeights))
      = some ([(9, 0), (7, 1), (8, 1)], [[-1 / 2, 1 / 2]], [[3 / 2, 5 / 2], [7 / 2, 9 / 2]]) := by
  simp [runAllSamples, runLangs, descendAll, descendSample, descendRows, descendRow, samplesOf,
    List.lookup, onesGrad, smallTrainer, twoLabels]
  norm_num


/-! ## Rounding of `float64` does not cross an integer -/

theorem roundEven_le_of_le_int (x : ℚ) (n : ℤ) (h : x ≤ n) : roundEven x ≤ n := by
  have h1 : (⌊x⌋ : ℚ) ≤ x := Int.floor_le x
  have h2 : ⌊x⌋ ≤ n := by exact_mod_cast h1.trans h
  have h3 : ¬ (x - ⌊x⌋ < 1 / 2) → ⌊x⌋ + 1 ≤ n := by
    intro hd
    by_contra hc
    have e : ⌊x⌋ = n := by omega
    rw [e] at hd
    apply hd
    linarith
  unfold roundEven
  split_ifs with ha hb hc
  · exact h2
  · exact h3 ha
  · exact h2
  · exact h3 ha

theorem int_le_roundEven (x : ℚ) (n : ℤ) (h : (n : ℚ) ≤ x) : n ≤ roundEven x := by
  have h1 : n ≤ ⌊x⌋ := Int.le_floor.mpr h
  unfold roundEven
  split_ifs <;> omega

theorem ulpExp_nonpos (q : ℚ) (h : |q| < 2 ^ 53) : ulpExp q ≤ 0 := by
  have hlog : Int.log 2 |q| < 53 := by
    rcases (abs_nonneg q).eq_or_lt with h0 | h0
    · rw [Int.log_of_right_le_zero 2 (le_of_eq h0.symm)]
      norm_num
    · rw [← Int.lt_zpow_iff_log_lt (by norm_num) h0]
      exact_mod_cast h
  unfold ulpExp
  omega

theorem roundNearest_bounds (q : ℚ) (n : ℤ) (hq : |q| < 2 ^ 53) :
    (q ≤ n → roundNearest q ≤ n) ∧ ((n : ℚ) ≤ q → (n : ℚ) ≤ roundNearest q) := by
  have hk := ulpExp_nonpos q hq
  obtain ⟨m, hm⟩ : ∃ m : ℕ, ulpExp q = -(m : ℤ) := ⟨(-ulpExp q).toNat, by omega⟩
  have hu : (2 : ℚ) ^ ulpExp q = 1 / 2 ^ m := by
    rw [hm, zpow_neg, zpow_natCast]
    simp
  have hpos : (0 : ℚ) < 2 ^ m := by positivity
  unfold roundNearest
  rw [hu]
  have hdiv : q / (1 / 2 ^ m) = q * 2 ^ m := by field_simp
  rw [hdiv]
  constructor
  · intro h
    have h1 : q * 2 ^ m ≤ ((n * 2 ^ m : ℤ) : ℚ) := by
      push_cast
      exact mul_le_mul_of_nonneg_right h hpos.le
    have h2 : (roundEven (q * 2 ^ m) : ℚ) ≤ ((n * 2 ^ m : ℤ) : ℚ) := by
      exact_mod_cast roundEven_le_of_le_int _ _ h1
    push_cast at h2
    rw [mul_one_div, div_le_iff₀ hpos]
    exact h2
  · intro h
    have h1 : ((n * 2 ^ m : ℤ) : ℚ) ≤ q * 2 ^ m := by
      push_cast
      exact mul_le_mul_of_nonneg_right h hpos.le
    have h2 : ((n * 2 ^ m : ℤ) : ℚ) ≤ (roundEven (q * 2 ^ m) : ℚ) := by
      exact_mod_cast int_le_roundEven _ _ h1
    push_cast at h2
    rw [mul_one_div, le_div_iff₀ hpos]
    exact h2

/-- An exact result between the integers `lo` and `hi`, both of modulus at most
2, is rounded to a finite `float64` between `lo` and `hi` -/
theorem Binary64.round_between (q : ℚ) (lo hi : ℤ) (h1 : (lo : ℚ) ≤ q) (h2 : q ≤ hi)
    (hlo : -2 ≤ lo) (hhi : hi ≤ 2) :
    ∃ y, Binary64.round q = Binary64.fin y ∧ (lo : ℚ) ≤ y ∧ y ≤ hi := by
  have hlo2 : (-2 : ℚ) ≤ lo := by exact_mod_cast hlo
  have hhi2 : (hi : ℚ) ≤ 2 := by exact_mod_cast hhi
  have hq : |q| < 2 ^ 53 := by
    rw [abs_lt]
    constructor <;> norm_num <;> linarith
  have hb := roundNearest_bounds q
  have ha := (hb lo hq).2 h1
  have hc := (hb hi hq).1 h2
  refine ⟨roundNearest q, ?_, ha, hc⟩
  unfold Binary64.round
  rw [if_neg]
  rw [not_le, abs_lt]
  constructor <;> norm_num <;> linarith

/-- The weight `r*2 - 1` of a `float64` draw `r` in [0, 1), computed with the
rounding of `float64`, is finite and in [-1, 1] -/
theorem Binary64.weight_in_range (q : ℚ) (h0 : 0 ≤ q) (h1 : q < 1) :
    ∃ w, Binary64.fin q * 2 - 1 = Binary64.fin w ∧ -1 ≤ w ∧ w ≤ 1 := by
  obtain ⟨y, hy, hy0, hy2⟩ := Binary64.round_between (q * 2) 0 2
    (by push_cast; linarith) (by push_cast; linarith) (by norm_num) (by norm_num)
  push_cast at hy0 hy2
  obtain ⟨w, hw, hw0, hw1⟩ := Binary64.round_between (y - 1) (-1) 1
    (by push_cast; linarith) (by push_cast; linarith) (by norm_num) (by norm_num)
  push_cast at hw0 hw1
  refine ⟨w, ?_, hw0, hw1⟩
  have e1 : Binary64.fin q * 2 = Binary64.fin y := hy
  rw [e1]
  exact hw


/-- C15: with the arithmetic of `float64`, rounding included: when every value
of the random source is a finite `float64` in [0, 1), `NewTrainer` returns a
Trainer every weight of which, in both matrices, is a finite `float64` in
[-1, 1] -/
theorem NewTrainer_weights_in_range {Freqs : Type} (G : GradOps Binary64 Freqs)
    (d : DataSet Freqs) (stepSize : Binary64) (r : Rand Binary64)
    (hr : ∀ k, ∃ q, r.draws k = Binary64.fin q ∧ 0 ≤ q ∧ q < 1) :
    ∃ t r1, NewTrainer G d stepSize r = some (t, r1) ∧
      (∀ row ∈ t.n.HiddenWeights, ∀ w ∈ row, ∃ q, w = Binary64.fin q ∧ -1 ≤ q ∧ q ≤ 1) ∧
      (∀ row ∈ t.n.OutputWeights, ∀ w ∈ row, ∃ q, w = Binary64.fin q ∧ -1 ≤ q ∧ q ≤ 1) := by
  have hw : ∀ k, ∃ q, r.draws k * 2 - 1 = Binary64.fin q ∧ -1 ≤ q ∧ q ≤ 1 := by
    intro k
    obtain ⟨q, hq, h0, h1⟩ := hr k
    rw [hq]
    exact Binary64.weight_in_range q h0 h1
  refine ⟨_, _, NewTrainer_eq G d stepSize r, ?_, ?_⟩
  · intro row hrow w hmem
    simp only [List.mem_map, List.mem_range] at hrow
    obtain ⟨i, _, rfl⟩ := hrow
    simp only [List.mem_map, List.mem_range] at hmem
    obtain ⟨m, _, rfl⟩ := hmem
    exact hw _
  · intro row hrow w hmem
    simp only [List.mem_map, List.mem_range] at hrow
    obtain ⟨i, _, rfl⟩ := hrow
    rw [List.mem_append] at hmem
    rcases hmem with hmem | hmem
    · simp only [List.mem_map, List.mem_range] at hmem
      obtain ⟨m, _, rfl⟩ := hmem
      exact hw _
    · rw [List.mem_replicate] at hmem
      rw [hmem.2]
      exact ⟨0, rfl, by norm_num, by norm_num⟩

/-- Witness of C15: the DataSet with one label and the random source of
`float64` that returns 2^-60 and then 3/4 -/
theorem NewTrainer_weights_in_range_witness :
    (∀ k, ∃ q, tinyThenHigh.draws k = Binary64.fin q ∧ 0 ≤ q ∧ q < 1) ∧
      ∃ t r1, NewTrainer noGrad oneLabel 1 tinyThenHigh = some (t, r1) ∧
        (∀ row ∈ t.n.HiddenWeights, ∀ w ∈ row, ∃ q, w = Binary64.fin q ∧ -1 ≤ q ∧ q ≤ 1) ∧
        (∀ row ∈ t.n.OutputWeights, ∀ w ∈ row, ∃ q, w = Binary64.fin q ∧ -1 ≤ q ∧ q ≤ 1) :=
  have h : ∀ k, ∃ q, tinyThenHigh.draws k = Binary64.fin q ∧ 0 ≤ q ∧ q < 1 := by
    intro k
    by_cases hk : k = 0
    · exact ⟨1 / 2 ^ 60, by simp [tinyThenHigh, hk], by norm_num, by norm_num⟩
    · exact ⟨3 / 4, by simp [tinyThenHigh, hk], by norm_num, by norm_num⟩
  ⟨h, NewTrainer_weights_in_range noGrad oneLabel 1 tinyThenHigh h⟩

theorem roundEven_eq_of_near (x : ℚ) (z : ℤ) (h : |x - z| < 1 / 2) : roundEven x = z := by
  rw [abs_lt] at h
  obtain ⟨h1, h2⟩ := h
  by_cases hx : (z : ℚ) ≤ x
  · have hf : ⌊x⌋ = z := by
      rw [Int.floor_eq_iff]
      constructor <;> linarith
    unfold roundEven
    rw [hf, if_pos (by linarith)]
  · have hf : ⌊x⌋ = z - 1 := by
      rw [Int.floor_eq_iff]
      push_cast
      constructor <;> linarith
    unfold roundEven
    rw [hf, if_neg (by push_cast; linarith), if_pos (by push_cast; linarith)]
    ring

theorem ulpExp_eq (q : ℚ) (e : ℤ) (h1 : (2 : ℚ) ^ (e + 52) ≤ |q|) (h2 : |q| < 2 ^ (e + 53))
    (he : -1074 ≤ e) : ulpExp q = e := by
  have hpos : 0 < |q| := lt_of_lt_of_le (by positivity) h1
  have hb : (1 : ℕ) < 2 := by norm_num
  have hl1 : e + 52 ≤ Int.log 2 |q| := by
    rw [← Int.zpow_le_iff_le_log hb hpos]
    exact_mod_cast h1
  have hl2 : Int.log 2 |q| < e + 53 := by
    rw [← Int.lt_zpow_iff_log_lt hb hpos]
    exact_mod_cast h2
  unfold ulpExp
  omega

/-- The value an exact result is rounded to, from its binade and the nearest
multiple of the unit in the last place -/
theorem Binary64.round_eq (q : ℚ) (e z : ℤ) (h1 : (2 : ℚ) ^ (e + 52) ≤ |q|)
    (h2 : |q| < 2 ^ (e + 53)) (he : -1074 ≤ e) (hz : |q / 2 ^ e - z| < 1 / 2)
    (hfin : |(z : ℚ) * 2 ^ e| < 2 ^ 1024) :
    Binary64.round q = Binary64.fin (z * 2 ^ e) := by
  have hr : roundNearest q = z * 2 ^ e := by
    unfold roundNearest
    rw [ulpExp_eq q e h1 h2 he, roundEven_eq_of_near _ z hz]
  unfold Binary64.round
  rw [hr, if_neg (not_le.mpr hfin)]

/-- The draw 2^-60 gives the weight -1: the exact value 2^-59 - 1 is not a
`float64` and is rounded -/
theorem Binary64.weight_of_tiny :
    Binary64.fin (1 / 2 ^ 60) * 2 - 1 = Binary64.fin (-1) := by
  have e1 : Binary64.fin (1 / 2 ^ 60) * 2 = Binary64.fin (1 / 2 ^ 59) := by
    show Binary64.round (1 / 2 ^ 60 * 2) = _
    rw [Binary64.round_eq (1 / 2 ^ 60 * 2) (-111) (2 ^ 52) (by norm_num [le_abs])
      (by norm_num [abs_lt]) (by norm_num) (by norm_num) (by norm_num [abs_lt])]
    norm_num
  rw [e1]
  show Binary64.round (1 / 2 ^ 59 - 1) = _
  rw [Binary64.round_eq (1 / 2 ^ 59 - 1) (-53) (-2 ^ 53) (by norm_num [le_abs])
    (by norm_num [abs_lt]) (by norm_num) (by norm_num [abs_lt]) (by norm_num [abs_lt])]
  norm_num

/-- The draw 3/4 gives the weight 1/2, without rounding -/
theorem Binary64.weight_of_high :
    Binary64.fin (3 / 4) * 2 - 1 = Binary64.fin (1 / 2) := by
  have e1 : Binary64.fin (3 / 4) * 2 = Binary64.fin (3 / 2) := by
    show Binary64.round (3 / 4 * 2) = _
    rw [Binary64.round_eq (3 / 4 * 2) (-52) (3 * 2 ^ 51) (by norm_num [le_abs])
      (by norm_num [abs_lt]) (by norm_num) (by norm_num) (by norm_num [abs_lt])]
    norm_num
  rw [e1]
  show Binary64.round (3 / 2 - 1) = _
  rw [Binary64.round_eq (3 / 2 - 1) (-53) (2 ^ 52) (by norm_num [le_abs])
    (by norm_num [abs_lt]) (by norm_num) (by norm_num) (by norm_num [abs_lt])]
  norm_num

/-- The Trainer of the witness of C15, evaluated: the one drawn output weight
is the rounded -1, the hidden weights are 1/2 -/
theorem NewTrainer_tinyThenHigh :
    (NewTrainer noGrad oneLabel 1 tinyThenHigh).map
        (fun p => (p.1.n.OutputWeights, p.1.n.HiddenWeights))
      = some ([[Binary64.fin (-1), Binary64.fin 0, Binary64.fin 0]],
          [[Binary64.fin (1 / 2), Binary64.fin (1 / 2)],
            [Binary64.fin (1 / 2), Binary64.fin (1 / 2)]]) := by
  have hz : (0 : Binary64) = Binary64.fin 0 := rfl
  have hp : tinyThenHigh.pos = 0 := rfl
  have h0 : tinyThenHigh.draws 0 * 2 - 1 = Binary64.fin (-1) := Binary64.weight_of_tiny
  have h1 : ∀ k, k ≠ 0 → tinyThenHigh.draws k * 2 - 1 = Binary64.fin (1 / 2) := by
    intro k hk
    have e : tinyThenHigh.draws k = Binary64.fin (3 / 4) := if_neg hk
    rw [e]
    exact Binary64.weight_of_high
  rw [NewTrainer_eq]
  simp only [oneLabel, hp, List.range_succ, List.range_zero, List.length_cons, List.length_nil,
    List.map_cons, List.map_nil, List.nil_append, List.cons_append, List.replicate, hz,
    Option.map_some', Nat.zero_add, Nat.add_zero, Nat.zero_mul, Nat.one_mul, Nat.mul_one,
    Nat.reduceAdd, Nat.reduceMul, h0, h1 1 (by norm_num), h1 2 (by norm_num),
    h1 3 (by norm_num), h1 4 (by norm_num)]


end neuralnet
